import Mathlib

/-!
# pollara-roce-exporter: a shallow embedding of `main.go`

The exporter samples the hardware counters that ionic RDMA NICs expose under
`/sys/class/infiniband/ionic_*/ports/1/hw_counters/<metric>` and republishes them
through a Prometheus registry.

Everything in the first part is a translation of `src/main.go`.  The program is stateful,
so the registry (`metrics`, `counters`, `customRegistry`) together with the lines written
to standard output is threaded through explicitly as a `State`; a Go `panic` is the error
side of `Except Panic`.  The library calls of the program are embedded by their
documented behaviour:

* `filepath.Base`, `filepath.Join`, `strings.TrimSpace`, `strconv.ParseFloat` work on
  the characters of the string;
* `os.Stat` and `ioutil.ReadFile` are the two fields of `FS`, the view of the
  filesystem that one update cycle gets; `filepath.Glob` is the pair it returns;
* `GaugeVec.WithLabelValues(l).Set(v)` overwrites the series of label `l`;
  `CounterVec.WithLabelValues(l).Add(v)` panics when `v < 0` and otherwise adds `v` the
  way `prometheus.counter` does: an increment that is a `uint64` goes to an integer sum
  that wraps at `2 ^ 64`, any other to a `float64` sum, and the counter shows the
  `float64` sum of the two parts;
  `Registry.MustRegister` panics when the collector is already registered.

A `float64` is the rational it denotes, the negative zero, an infinity or NaN; every
result of `ParseFloat`, of a conversion and of an addition is rounded to the nearest
`float64`, ties to even (`F64.round`).  The loop of the scheduler is run for finitely
many cycles; the HTTP server, which only reads the registry, and the interleaving of its
reads with a cycle are outside the embedding.
-/

namespace Exporter

/-! ## Values -/

/-- A `float64`: a finite value other than the negative zero, given by the rational it
denotes; the negative zero; an infinity; NaN.  Arithmetic rounds to the nearest
representable value (`F64.round`), so computed values are representable. -/
inductive F64 where
  | fin (q : ℚ)
  | negZero
  | inf (neg : Bool)
  | nan
deriving DecidableEq

namespace F64

/-- The number of binary digits of `n` (with `fuel` at least that number). -/
def bitLengthAux : Nat → Nat → Nat
  | 0, _ => 0
  | fuel + 1, n => if n = 0 then 0 else bitLengthAux fuel (n / 2) + 1

/-- The number of binary digits of `n`. -/
def bitLength (n : Nat) : Nat := bitLengthAux n n

/-- The binary exponent of `n / d` (for positive `n` and `d`): the `e` with
`2 ^ e ≤ n / d < 2 ^ (e + 1)`. -/
def floorLog2 (n d : Nat) : Int :=
  let e0 : Int := (bitLength n : Int) - (bitLength d : Int)
  if 0 ≤ e0 then (if d * 2 ^ e0.toNat ≤ n then e0 else e0 - 1)
  else (if d ≤ n * 2 ^ (-e0).toNat then e0 else e0 - 1)

/-- The integer nearest to `n / d`, the even one of the two when `n / d` is half-way. -/
def roundHalfEven (n d : Nat) : Nat :=
  let q := n / d
  let r := n % d
  if 2 * r < d then q else if d < 2 * r then q + 1 else if q % 2 = 0 then q else q + 1

/-- The zero of the given sign. -/
def zeroOf (neg : Bool) : F64 := if neg then negZero else fin 0

/-- The `float64` nearest to the number of sign `neg` and magnitude `mag` (round to
nearest, ties to even): 53 significant bits, exponents down to `-1022` (below that the
spacing stays `2 ^ -1074`), an infinity from `2 ^ 1024` on. -/
def round (neg : Bool) (mag : ℚ) : F64 :=
  if mag ≤ 0 then zeroOf neg
  else
    let n := mag.num.natAbs
    let d := mag.den
    let e := max (floorLog2 n d) (-1022)
    let s := e - 52
    if 0 ≤ s then
      let m := roundHalfEven n (d * 2 ^ s.toNat)
      if 2 ^ 1024 ≤ m * 2 ^ s.toNat then inf neg
      else fin (if neg then -((m * 2 ^ s.toNat : Nat) : ℚ) else ((m * 2 ^ s.toNat : Nat) : ℚ))
    else
      let m := roundHalfEven (n * 2 ^ (-s).toNat) d
      if m = 0 then zeroOf neg
      else fin (if neg then -((m : ℚ) / ((2 ^ (-s).toNat : Nat) : ℚ))
                else (m : ℚ) / ((2 ^ (-s).toNat : Nat) : ℚ))

/-- The `float64` nearest to a rational. -/
def ofRat (q : ℚ) : F64 := round (decide (q < 0)) |q|

/-- The conversion `float64(n)` of an unsigned integer. -/
def ofNat (n : Nat) : F64 := round false n

/-- Floating-point addition `a + b`: the exact sum rounded, with the IEEE rules for the
zeros, the infinities and NaN. -/
def add : F64 → F64 → F64
  | nan, _ => nan
  | _, nan => nan
  | inf a, inf b => if a = b then inf a else nan
  | inf a, _ => inf a
  | _, inf b => inf b
  | negZero, negZero => negZero
  | negZero, fin b => fin b
  | fin a, negZero => fin a
  | fin a, fin b => if a + b = 0 then fin 0 else ofRat (a + b)

/-- The comparison `v < 0` of Go on `float64`: false on NaN and on the zeros. -/
def ltZero : F64 → Bool
  | fin q => decide (q < 0)
  | negZero => false
  | inf neg => neg
  | nan => false

/-- The comparison `a == b` of Go on `float64`: the two zeros are equal, NaN equals
nothing. -/
def eq : F64 → F64 → Bool
  | nan, _ => false
  | _, nan => false
  | negZero, negZero => true
  | negZero, fin b => decide (b = 0)
  | fin a, negZero => decide (a = 0)
  | a, b => decide (a = b)

/-- The conversion `uint64(v)` of a `float64` that is not below zero: the fraction is
discarded.  For a value that `uint64` cannot hold (`2 ^ 64` or more, an infinity, NaN) Go
leaves the result to the implementation; the value taken here is 0, with which the
comparison in `Add` fails as it does on amd64. -/
def toUint64 : F64 → Nat
  | fin q => if q < 2 ^ 64 then q.num.toNat / q.den else 0
  | _ => 0

/-- The value `0`. -/
def zero : F64 := fin 0

end F64

/-- The state of one counter (`prometheus.counter`): the sum of the integral increments
as a `uint64` (`valInt`) and the floating-point sum of the others (`valBits`). -/
structure CounterSeries where
  valBits : F64
  valInt : Nat
deriving DecidableEq

/-- A new counter. -/
def CounterSeries.zero : CounterSeries := ⟨F64.fin 0, 0⟩

/-- The method `counter.Add(v)` for a `v` that is not below zero: an increment that is a
`uint64` (`float64(uint64(v)) == v`) is added to `valInt`, modulo `2 ^ 64`; any other is
added to `valBits`. -/
def CounterSeries.add (c : CounterSeries) (v : F64) : CounterSeries :=
  let ival := v.toUint64
  if (F64.ofNat ival).eq v then { c with valInt := (c.valInt + ival) % 2 ^ 64 }
  else { c with valBits := c.valBits.add v }

/-- The value that the counter shows (`counter.get`): `valBits + float64(valInt)`. -/
def CounterSeries.get (c : CounterSeries) : F64 := c.valBits.add (F64.ofNat c.valInt)

/-! ## Metric schema (`metricDefinitions`) -/

/-- One entry of the schema: `name`, `help`, and `kind` (`gauge` or `counter`). -/
structure MetricDef where
  name : String
  help : String
  kind : String
deriving DecidableEq

/-- Ironic NIC-specific metric definitions (counters and gauges). -/
def metricDefinitions : List MetricDef := [
  -- General NIC lifespan
  ⟨"lifespan", "NIC lifespan in seconds", "gauge"⟩,
  -- Request RX Errors
  ⟨"req_rx_cqe_err", "Request RX CQE Errors", "counter"⟩,
  ⟨"req_rx_cqe_flush", "Request RX CQE Flushes", "counter"⟩,
  ⟨"req_rx_dup_response", "Duplicate RX responses", "counter"⟩,
  ⟨"req_rx_impl_nak_seq_err", "Request RX NAK sequence errors", "counter"⟩,
  ⟨"req_rx_inval_pkts", "Invalid RX packets", "counter"⟩,
  ⟨"req_rx_oper_err", "Request RX operation errors", "counter"⟩,
  ⟨"req_rx_pkt_seq_err", "Packet sequence errors", "counter"⟩,
  ⟨"req_rx_rmt_acc_err", "Remote access errors", "counter"⟩,
  ⟨"req_rx_rmt_req_err", "Remote request errors", "counter"⟩,
  ⟨"req_rx_rnr_retry_err", "RNR retry errors", "counter"⟩,
  -- Request TX Errors
  ⟨"req_tx_loc_acc_err", "Local TX access errors", "counter"⟩,
  ⟨"req_tx_loc_oper_err", "Local TX operation errors", "counter"⟩,
  ⟨"req_tx_loc_sgl_inv_err", "Local TX scatter-gather list invalid errors", "counter"⟩,
  ⟨"req_tx_mem_mgmt_err", "TX memory management errors", "counter"⟩,
  ⟨"req_tx_retry_excd_err", "TX retries exceeded", "counter"⟩,
  -- Response RX Errors
  ⟨"resp_rx_cqe_err", "Response RX CQE Errors", "counter"⟩,
  ⟨"resp_rx_cqe_flush", "Response RX CQE Flushes", "counter"⟩,
  ⟨"resp_rx_dup_request", "Duplicate RX requests", "counter"⟩,
  ⟨"resp_rx_inval_request", "Invalid RX requests", "counter"⟩,
  ⟨"resp_rx_loc_len_err", "Local length errors", "counter"⟩,
  ⟨"resp_rx_loc_oper_err", "Local operation errors", "counter"⟩,
  ⟨"resp_rx_outof_atomic", "Out of atomic resources", "counter"⟩,
  ⟨"resp_rx_outof_buf", "Out of buffer space", "counter"⟩,
  ⟨"resp_rx_outouf_seq", "Out of sequence errors", "counter"⟩,
  ⟨"resp_rx_s0_table_err", "Table errors in RX response", "counter"⟩,
  -- Response TX Errors
  ⟨"resp_tx_loc_sgl_inv_err", "Local TX scatter-gather list invalid errors", "counter"⟩,
  ⟨"resp_tx_pkt_seq_err", "Response TX Packet Sequence Errors", "counter"⟩,
  ⟨"resp_tx_rmt_acc_err", "Remote TX access errors", "counter"⟩,
  ⟨"resp_tx_rmt_inval_req_err", "Remote TX invalid request errors", "counter"⟩,
  ⟨"resp_tx_rmt_oper_err", "Remote TX operation errors", "counter"⟩,
  ⟨"resp_tx_rnr_retry_err", "Remote TX RNR retry errors", "counter"⟩,
  -- RX (Received) RDMA Metrics
  ⟨"rx_rdma_cnp_pkts", "Received RDMA Congestion Notification Packets", "counter"⟩,
  ⟨"rx_rdma_ecn_pkts", "Received RDMA ECN Marked Packets", "counter"⟩,
  ⟨"rx_rdma_mcast_bytes", "Received RDMA Multicast Bytes", "counter"⟩,
  ⟨"rx_rdma_mcast_pkts", "Received RDMA Multicast Packets", "counter"⟩,
  ⟨"rx_rdma_ucast_bytes", "Received RDMA Unicast Bytes", "counter"⟩,
  ⟨"rx_rdma_ucast_pkts", "Received RDMA Unicast Packets", "counter"⟩,
  -- TX (Transmitted) RDMA Metrics
  ⟨"tx_rdma_cnp_pkts", "Transmitted RDMA Congestion Notification Packets", "counter"⟩,
  ⟨"tx_rdma_mcast_bytes", "Transmitted RDMA Multicast Bytes", "counter"⟩,
  ⟨"tx_rdma_mcast_pkts", "Transmitted RDMA Multicast Packets", "counter"⟩,
  ⟨"tx_rdma_ucast_bytes", "Transmitted RDMA Unicast Bytes", "counter"⟩,
  ⟨"tx_rdma_ucast_pkts", "Transmitted RDMA Unicast Packets", "counter"⟩
]

/-! ## Library calls on strings -/

/-- The scan of `filepath.Base` over the characters of a path whose trailing separators are already
removed and which is scanned from its end: the characters after the last `/`. -/
def lastElement : List Char → List Char → List Char
  | [], acc => acc
  | c :: rest, acc => if c = '/' then acc else lastElement rest (c :: acc)

/-- The call `filepath.Base(path)`: the last element of `path`.  Trailing separators are removed
first; the empty path gives `.`, a path made of separators only gives `/`. -/
def Base (path : String) : String :=
  if path.data = [] then "."
  else
    let stripped := path.data.reverse.dropWhile (fun c => c = '/')
    let last := lastElement stripped []
    if last = [] then "/" else String.mk last

/-- The call `filepath.Join(dir, elem)` for two elements: empty elements are ignored and the rest
is joined by the separator.  The lexical normalisation (`Clean`) of the result is not
modelled: the filesystem `FS` below is an arbitrary function of the joined string. -/
def Join (dir elem : String) : String :=
  if dir.data = [] then elem
  else if elem.data = [] then dir
  else dir ++ "/" ++ elem

/-- The predicate `unicode.IsSpace`: the Latin-1 white space characters and the other code points with
the Unicode `White_Space` property. -/
def isSpace (c : Char) : Bool :=
  let n := c.toNat
  n = 0x09 || n = 0x0A || n = 0x0B || n = 0x0C || n = 0x0D || n = 0x20 || n = 0x85
    || n = 0xA0 || n = 0x1680 || (0x2000 ≤ n && n ≤ 0x200A) || n = 0x2028 || n = 0x2029
    || n = 0x202F || n = 0x205F || n = 0x3000

/-- The trimming of `strings.TrimSpace`, on a list of characters. -/
def trimSpaceChars (cs : List Char) : List Char :=
  ((cs.dropWhile isSpace).reverse.dropWhile isSpace).reverse

/-- The call `strings.TrimSpace(s)`: `s` without its leading and trailing white space. -/
def TrimSpace (s : String) : String := String.mk (trimSpaceChars s.data)

/-! ## `strconv.ParseFloat(s, 64)` -/

/-- The two causes of a `*strconv.NumError`: `ErrSyntax` and `ErrRange`. -/
inductive NumError where
  | syntaxErr
  | rangeErr
deriving DecidableEq

/-- The helper `lower(c)` of strconv: `c | ('x' - 'X')`. -/
def lower (c : Char) : Char := Char.ofNat (c.toNat ||| 0x20)

/-- The lower-casing inside `commonPrefixLenIgnoreCase`: `c += 'a' - 'A'` for the
letters `A` to `Z`. -/
def asciiLower (c : Char) : Char :=
  if 65 ≤ c.toNat ∧ c.toNat ≤ 90 then Char.ofNat (c.toNat + 32) else c

/-- The helper `commonPrefixLenIgnoreCase(s, prefix)` of strconv; `pre` is lower-case. -/
def commonPrefixLenIgnoreCase : List Char → List Char → Nat
  | c :: s, p :: pre =>
    if asciiLower c = p then commonPrefixLenIgnoreCase s pre + 1 else 0
  | _, _ => 0

/-- The case `i`, `I` of `special` (also reached after a sign): `inf` or `infinity`,
ignoring case; anything between the two lengths counts as `inf`. -/
def specialInf (neg : Bool) (nsign : Nat) (t : List Char) : Option (F64 × Nat) :=
  let n := commonPrefixLenIgnoreCase t "infinity".data
  let n := if 3 < n ∧ n < 8 then 3 else n
  if n = 3 ∨ n = 8 then some (F64.inf neg, nsign + n) else none

/-- The helper `special(s)` of strconv: the possibly signed `inf`/`infinity` and the
unsigned `nan`, ignoring case; returns the value and the number of characters used. -/
def special (s : List Char) : Option (F64 × Nat) :=
  match s with
  | [] => none
  | c :: t =>
    if c = '+' then specialInf false 1 t
    else if c = '-' then specialInf true 1 t
    else if c = 'i' ∨ c = 'I' then specialInf false 0 s
    else if c = 'n' ∨ c = 'N' then
      if commonPrefixLenIgnoreCase s "nan".data = 3 then some (F64.nan, 3) else none
    else none

/-- State of the mantissa loop of `readFloat`: the digits read so far as a number,
the count `nd` of digits after the leading zeros, the position `dp` of the point. -/
structure Mantissa where
  mantissa : Nat := 0
  nd : Nat := 0
  dp : Int := 0
  sawdot : Bool := false
  sawdigits : Bool := false
  underscores : Bool := false

/-- The mantissa loop of `readFloat`: digits, one point, underscores; stops at the first
other character and returns what is left.  The mantissa is kept in full: the source cuts
it after 19 digits and, when the cut matters for the rounding, converts the whole text
again, so what it returns is the number written, rounded once (`ParseFloat`). -/
def readMantissa (base : Nat) : List Char → Mantissa → Mantissa × List Char
  | [], m => (m, [])
  | c :: rest, m =>
    if c = '_' then readMantissa base rest { m with underscores := true }
    else if c = '.' then
      if m.sawdot then (m, c :: rest)
      else readMantissa base rest { m with sawdot := true, dp := m.nd }
    else if '0' ≤ c ∧ c ≤ '9' then
      if c = '0' ∧ m.nd = 0 then
        readMantissa base rest { m with sawdigits := true, dp := m.dp - 1 }
      else
        readMantissa base rest { m with sawdigits := true, nd := m.nd + 1,
                                        mantissa := m.mantissa * base + (c.toNat - '0'.toNat) }
    else if base = 16 ∧ 'a' ≤ lower c ∧ lower c ≤ 'f' then
      readMantissa base rest { m with sawdigits := true, nd := m.nd + 1,
                                      mantissa := m.mantissa * 16 + ((lower c).toNat - 'a'.toNat + 10) }
    else (m, c :: rest)

/-- The digits of the exponent in `readFloat` (underscores allowed between them); the
source stops accumulating at 10000. -/
def readExponent : List Char → Nat → Bool → Nat × Bool × List Char
  | [], e, us => (e, us, [])
  | c :: rest, e, us =>
    if c = '_' then readExponent rest e true
    else if '0' ≤ c ∧ c ≤ '9' then
      readExponent rest (if e < 10000 then e * 10 + (c.toNat - '0'.toNat) else e) us
    else (e, us, c :: rest)

/-- The loop of `underscoreOK`: `saw` is the class of the last character seen
(`'0'` digit, `'_'` underscore, `'!'` anything else, `'^'` beginning). -/
def underscoreLoop (hex : Bool) : List Char → Char → Bool
  | [], saw => saw != '_'
  | c :: rest, saw =>
    if ('0' ≤ c ∧ c ≤ '9') ∨ (hex = true ∧ 'a' ≤ lower c ∧ lower c ≤ 'f') then
      underscoreLoop hex rest '0'
    else if c = '_' then
      if saw != '0' then false else underscoreLoop hex rest '_'
    else if saw = '_' then false
    else underscoreLoop hex rest '!'

/-- The helper `underscoreOK(s)` of strconv: underscores only between digits or between
a base prefix and a digit. -/
def underscoreOK (s : List Char) : Bool :=
  let s := match s with
    | c :: t => if c = '-' ∨ c = '+' then t else s
    | [] => s
  match s with
  | c0 :: c1 :: t =>
    if c0 = '0' ∧ (lower c1 = 'b' ∨ lower c1 = 'o' ∨ lower c1 = 'x') then
      underscoreLoop (lower c1 = 'x') t '0'
    else underscoreLoop false s '^'
  | _ => underscoreLoop false s '^'

/-- What `readFloat` returns on success: sign, mantissa, base (10 or 16), the exponent
of 10 (decimal) or of 2 (hexadecimal), and the number of characters used. -/
structure Scanned where
  neg : Bool
  mantissa : Nat
  hex : Bool
  exp : Int
  used : Nat

/-- The test `i+2 < len(s) && s[i] == '0' && lower(s[i+1]) == 'x'` of `readFloat`, on
what follows the sign. -/
def hexPrefix : List Char → Bool
  | c0 :: c1 :: _ :: _ => decide (c0 = '0' ∧ lower c1 = 'x')
  | _ => false

/-- The end of `readFloat`: the underscores must be well placed in the `s[:i]` that was
used; the exponent is relative to the last mantissa digit. -/
def finishScan (s : List Char) (neg hex : Bool) (m : Mantissa) (dp : Int) (underscores : Bool)
    (rest : List Char) : Option Scanned :=
  let used := s.length - rest.length
  let ndMant : Int := if hex then (m.nd : Int) * 4 else m.nd
  if underscores && !underscoreOK (s.take used) then none
  else some ⟨neg, m.mantissa, hex, if m.mantissa ≠ 0 then dp - ndMant else 0, used⟩

/-- The scanner `readFloat(s)` of strconv: optional sign, optional `0x`, mantissa,
optional exponent (`e`, or the mandatory `p` of a hexadecimal mantissa). -/
def readFloat (s : List Char) : Option Scanned :=
  match s with
  | [] => none
  | c :: t =>
    let neg := decide (c = '-')
    let afterSign := if c = '+' ∨ c = '-' then t else s
    let hex := hexPrefix afterSign
    let base := if hex then 16 else 10
    let expChar := if hex then 'p' else 'e'
    let scan := readMantissa base (if hex then afterSign.drop 2 else afterSign) {}
    let m := scan.1
    let rest := scan.2
    if !m.sawdigits then none
    else
      let dp : Int := if m.sawdot then m.dp else m.nd
      let dp : Int := if hex then dp * 4 else dp
      match rest with
      | e :: rest1 =>
        if lower e = expChar then
          match rest1 with
          | [] => none
          | sg :: rest2 =>
            let esign : Int := if sg = '-' then -1 else 1
            let rest3 := if sg = '+' ∨ sg = '-' then rest2 else rest1
            match rest3 with
            | [] => none
            | d :: _ =>
              if d < '0' ∨ d > '9' then none
              else
                let ex := readExponent rest3 0 m.underscores
                finishScan s neg hex m (dp + ex.1 * esign) ex.2.1 ex.2.2
        else if hex then none
        else finishScan s neg hex m dp m.underscores rest
      | [] => if hex then none else finishScan s neg hex m dp m.underscores rest

/-- The magnitude `mantissa * base ^ exp` of a scanned number (base 10, or 2 for a
hexadecimal mantissa), exactly. -/
def Scanned.magnitude (r : Scanned) : ℚ :=
  let b : ℚ := if r.hex then 2 else 10
  if 0 ≤ r.exp then (r.mantissa : ℚ) * b ^ r.exp.toNat
  else (r.mantissa : ℚ) / b ^ (-r.exp).toNat

/-- The call `strconv.ParseFloat(s, 64)`: the special values, else a decimal or hexadecimal
floating-point number that uses the whole of `s`, rounded to the nearest `float64`;
`ErrSyntax` when `s` is not well-formed, `ErrRange` when the number rounds to an
infinity. -/
def ParseFloat (s : String) : Except NumError F64 :=
  match special s.data with
  | some (v, n) => if n = s.data.length then .ok v else .error .syntaxErr
  | none =>
    match readFloat s.data with
    | none => .error .syntaxErr
    | some r =>
      if r.used ≠ s.data.length then .error .syntaxErr
      else
        match F64.round r.neg r.magnitude with
        | .inf _ => .error .rangeErr
        | v => .ok v

deriving instance DecidableEq for Except

/-! ## Filesystem, errors, output -/

/-- Outcome of `os.Stat(path)` as far as the program looks at it: only
`os.IsNotExist(err)` is tested. -/
inductive StatResult where
  | found
  | notExist
  | otherErr
deriving DecidableEq

/-- Outcome of `ioutil.ReadFile(path)`: the content, an error for which
`os.IsNotExist` holds, or any other error. -/
inductive ReadResult where
  | data (content : String)
  | notExist
  | otherErr
deriving DecidableEq

/-- The filesystem as one update cycle sees it. -/
structure FS where
  stat : String → StatResult
  readFile : String → ReadResult

/-- The `error` values that `parseAndUpdateMetrics` and `discoverNICs` build. -/
inductive GoError where
  | readError (counterFile : String)
  | parseError (counterFile : String) (cause : NumError)
  | listError
  | noNICs
deriving DecidableEq

/-- The lines the program prints. -/
inductive LogLine where
  | discovered (nicPaths : List String)
  | discoverError (err : GoError)
  | nicSkipped (nicName : String)
  | metricMissing (name nicName : String)
  | updateError (nicPath : String) (err : GoError)
deriving DecidableEq

/-- The two ways the program can panic. -/
inductive Panic where
  | counterDecrease
  | duplicateRegistration (name : String)
deriving DecidableEq

/-! ## Registry -/

/-- A metric vector with the single label `nic`: the series of each label value,
`none` while the series does not exist.  The series of a `GaugeVec` is its value, that of
a `CounterVec` a `CounterSeries`. -/
abbrev Vec (α : Type) : Type := String → Option α

/-- A freshly created vector: no series. -/
def Vec.empty {α : Type} : Vec α := fun _ => none

/-- The series of `label` set to `v`. -/
def Vec.set {α : Type} (vec : Vec α) (label : String) (v : α) : Vec α :=
  fun l => if l = label then some v else vec l

/-- The global variables `metrics`, `counters` and `customRegistry` (the names of the
collectors registered with it). -/
structure Registry where
  metrics : String → Option (Vec F64)
  counters : String → Option (Vec CounterSeries)
  registered : List String

/-- The globals as initialised: two empty maps and a new registry. -/
def Registry.initial : Registry := ⟨fun _ => none, fun _ => none, []⟩

/-- What the exposition shows for the series `(name, nic)`: the value of the gauge, or
what the counter shows, in the vector stored under `name`, at the label value `nic`. -/
def Registry.value (reg : Registry) (name nic : String) : Option F64 :=
  match reg.metrics name with
  | some gauge => gauge nic
  | none =>
    match reg.counters name with
    | some counter => (counter nic).map CounterSeries.get
    | none => none

/-- Registry and output of the running program. -/
structure State where
  reg : Registry
  log : List LogLine

/-- One more printed line. -/
def State.print (st : State) (line : LogLine) : State := { st with log := st.log ++ [line] }

/-- The call `customRegistry.MustRegister(c)` for the collector named `name`. -/
def MustRegister (reg : Registry) (name : String) : Except Panic Registry :=
  if name ∈ reg.registered then .error (.duplicateRegistration name)
  else .ok { reg with registered := reg.registered ++ [name] }

/-- The loop of `registerMetrics` over a list of definitions. -/
def registerLoop : List MetricDef → Registry → Except Panic Registry
  | [], reg => .ok reg
  | d :: rest, reg =>
    if d.kind = "gauge" then
      match MustRegister { reg with metrics := fun n => if n = d.name then some Vec.empty else reg.metrics n } d.name with
      | .ok reg1 => registerLoop rest reg1
      | .error p => .error p
    else if d.kind = "counter" then
      match MustRegister { reg with counters := fun n => if n = d.name then some Vec.empty else reg.counters n } d.name with
      | .ok reg1 => registerLoop rest reg1
      | .error p => .error p
    else registerLoop rest reg

/-- Register Prometheus metrics dynamically: `registerMetrics()` on the initial globals. -/
def registerMetrics : Except Panic Registry := registerLoop metricDefinitions Registry.initial

/-! ## Discovery -/

/-- Discover only Ironic NICs: `discoverNICs()`, given what
`filepath.Glob("/sys/class/infiniband/ionic_*")` returned (matches and error flag);
returns the result and the state, in which the list found is printed. -/
def discoverNICs (globPaths : List String) (globErr : Bool) (st : State) :
    Except GoError (List String) × State :=
  if globErr then (.error .listError, st)
  else if globPaths.length = 0 then (.error .noNICs, st)
  else (.ok globPaths, st.print (.discovered globPaths))

/-! ## Update cycle -/

/-- The `switch def.kind` of `parseAndUpdateMetrics`: `Set` on the gauge or `Add` on the
counter registered under the name, at the label value `nicName`. -/
def applyValue (d : MetricDef) (nicName : String) (value : F64) (reg : Registry) :
    Except Panic Registry :=
  if d.kind = "gauge" then
    match reg.metrics d.name with
    | some gauge =>
      .ok { reg with metrics := fun n => if n = d.name then some (gauge.set nicName value) else reg.metrics n }
    | none => .ok reg
  else if d.kind = "counter" then
    match reg.counters d.name with
    | some counter =>
      if value.ltZero then .error .counterDecrease
      else
        let old := (counter nicName).getD CounterSeries.zero
        .ok { reg with counters := fun n => if n = d.name then some (counter.set nicName (old.add value)) else reg.counters n }
    | none => .ok reg
  else .ok reg

/-- The value step of `parseAndUpdateMetrics`: `strconv.ParseFloat(strings.TrimSpace(string(data)), 64)`. -/
def parseValue (data : String) : Except NumError F64 := ParseFloat (TrimSpace data)

/-- The loop `for _, def := range ...` of `parseAndUpdateMetrics`, over a list of
definitions; returns the state and the `error` result of the function. -/
def metricLoop (fs : FS) (hwCountersPath nicName : String) :
    List MetricDef → State → Except Panic (State × Option GoError)
  | [], st => .ok (st, none)
  | d :: rest, st =>
    let counterFile := Join hwCountersPath d.name
    match fs.readFile counterFile with
    | .notExist => metricLoop fs hwCountersPath nicName rest (st.print (.metricMissing d.name nicName))
    | .otherErr => .ok (st, some (.readError counterFile))
    | .data content =>
      match parseValue content with
      | .error e => .ok (st, some (.parseError counterFile e))
      | .ok value =>
        match applyValue d nicName value st.reg with
        | .error p => .error p
        | .ok reg1 => metricLoop fs hwCountersPath nicName rest { st with reg := reg1 }

/-- The body of `parseAndUpdateMetrics(nicPath)` with the schema as a parameter. -/
def parseAndUpdateMetricsOver (defs : List MetricDef) (fs : FS) (st : State) (nicPath : String) :
    Except Panic (State × Option GoError) :=
  let nicName := Base nicPath
  let hwCountersPath := Join nicPath "ports/1/hw_counters"
  if fs.stat hwCountersPath = .notExist then .ok (st.print (.nicSkipped nicName), none)
  else metricLoop fs hwCountersPath nicName defs st

/-- Parse and update metrics for one NIC: `parseAndUpdateMetrics(nicPath)`. -/
def parseAndUpdateMetrics (fs : FS) (st : State) (nicPath : String) :
    Except Panic (State × Option GoError) :=
  parseAndUpdateMetricsOver metricDefinitions fs st nicPath

/-- Update metrics for all discovered NICs: `updateMetrics(nicPaths)`. -/
def updateMetrics (fs : FS) : List String → State → Except Panic State
  | [], st => .ok st
  | nicPath :: rest, st =>
    match parseAndUpdateMetrics fs st nicPath with
    | .error p => .error p
    | .ok (st1, none) => updateMetrics fs rest st1
    | .ok (st1, some err) => updateMetrics fs rest (st1.print (.updateError nicPath err))

/-- The first cycles of the loop `for { updateMetrics(nicPaths); time.Sleep(...) }` of
`main`, one filesystem view per cycle. -/
def scheduler (nicPaths : List String) : List FS → State → Except Panic State
  | [], st => .ok st
  | fs :: later, st =>
    match updateMetrics fs nicPaths st with
    | .error p => .error p
    | .ok st1 => scheduler nicPaths later st1

/-- How far `main` gets. -/
inductive MainResult where
  | exited (code : Nat) (st : State)
  | panicked (p : Panic)
  | serving (st : State)

/-- The function `main`, run for as many cycles of the scheduler as `cycles` is long.
The goroutine of the scheduler and the HTTP server start together, after discovery
succeeded; the server side (which only reads the registry) is not part of the state. -/
def main (globPaths : List String) (globErr : Bool) (cycles : List FS) : MainResult :=
  match registerMetrics with
  | .error p => .panicked p
  | .ok reg =>
    match discoverNICs globPaths globErr ⟨reg, []⟩ with
    | (.error err, st) => .exited 1 (st.print (.discoverError err))
    | (.ok nicPaths, st) =>
      match scheduler nicPaths cycles st with
      | .error p => .panicked p
      | .ok st1 => .serving st1

/-! ## Observations on a run, used to state the properties -/

/-- The gauge series `(name, nic)`: `none` when no gauge vector is stored under `name`,
`some none` when the vector has no series for `nic` yet. -/
def Registry.gaugeAt (reg : Registry) (name nic : String) : Option (Option F64) :=
  (reg.metrics name).map (fun vec => vec nic)

/-- The counter series `(name, nic)`, as `Registry.gaugeAt`. -/
def Registry.counterAt (reg : Registry) (name nic : String) : Option (Option CounterSeries) :=
  (reg.counters name).map (fun vec => vec nic)

/-- Two registries hold the same series for the label value `nic`. -/
def Registry.AgreeAt (nic : String) (r1 r2 : Registry) : Prop :=
  ∀ name, r1.gaugeAt name nic = r2.gaugeAt name nic ∧ r1.counterAt name nic = r2.counterAt name nic

/-- When `applyValue` panics: a negative value for a registered counter. -/
def applyPanics (d : MetricDef) (value : F64) (reg : Registry) : Prop :=
  d.kind ≠ "gauge" ∧ d.kind = "counter" ∧ (reg.counters d.name).isSome ∧ value.ltZero = true

/-- The registry and the returned `error` of an outcome of `parseAndUpdateMetrics`,
without the printed output. -/
def regView (o : Except Panic (State × Option GoError)) : Except Panic (Registry × Option GoError) :=
  match o with
  | .ok (st, err) => .ok (st.reg, err)
  | .error p => .error p

/-- The per-port counter directory of a device: `filepath.Join(nicPath, "ports/1/hw_counters")`. -/
def hwCounters (nicPath : String) : String := Join nicPath "ports/1/hw_counters"

/-- What the loop over `defs` reads for the metric `name`: the value parsed from its
counter file, when no earlier entry stops the loop with a read or parse error and the
file itself is present and parses.  (A condition on the filesystem view; what the loop
then does with the value is `metricLoop_effect`.) -/
def readOf (fs : FS) (hwCountersPath : String) : List MetricDef → String → Option F64
  | [], _ => none
  | e :: rest, name =>
    match fs.readFile (Join hwCountersPath e.name) with
    | .notExist => if e.name = name then none else readOf fs hwCountersPath rest name
    | .otherErr => none
    | .data content =>
      match parseValue content with
      | .error _ => none
      | .ok v => if e.name = name then some v else readOf fs hwCountersPath rest name

/-- The value that one call of `parseAndUpdateMetrics(nicPath)` successfully reads and
parses for the metric `name`, if any. -/
def successfulRead (fs : FS) (nicPath name : String) : Option F64 :=
  if fs.stat (hwCounters nicPath) = .notExist then none
  else readOf fs (hwCounters nicPath) metricDefinitions name

/-- No counter file of the device, for a metric of kind `counter`, holds a negative number. -/
def noNegativeCounter (fs : FS) (nicPath : String) : Bool :=
  metricDefinitions.all fun e =>
    match fs.readFile (Join (hwCounters nicPath) e.name) with
    | .data content =>
      match parseValue content with
      | .ok v => !(decide (e.kind = "counter") && v.ltZero)
      | .error _ => true
    | _ => true

/-- The schema entry is processed without stopping the loop: its file is absent, or it
is read and parses. -/
def passes (fs : FS) (hwCountersPath : String) (e : MetricDef) : Bool :=
  match fs.readFile (Join hwCountersPath e.name) with
  | .notExist => true
  | .otherErr => false
  | .data content => (parseValue content).isOk

/-- The gauge series after an entry of kind `kind` was read with value `v`: overwritten
when the kind is `gauge` and the vector exists. -/
def gaugeSet (kind : String) (v : F64) (old : Option (Option F64)) : Option (Option F64) :=
  if kind = "gauge" then old.map (fun _ => some v) else old

/-- The counter series after an entry of kind `kind` was read with value `v`: `v` added
(from zero when the series is new) when the kind is `counter` and the vector exists. -/
def counterAdd (kind : String) (v : F64) (old : Option (Option CounterSeries)) :
    Option (Option CounterSeries) :=
  if kind ≠ "gauge" ∧ kind = "counter" then
    old.map (fun o => some ((o.getD CounterSeries.zero).add v))
  else old

/-- The collectors of one registry are those of the other (same names in `metrics`,
in `counters` and in `customRegistry`). -/
def Registry.SameShape (r1 r2 : Registry) : Prop :=
  (∀ name, (r2.metrics name).isSome = (r1.metrics name).isSome) ∧
  (∀ name, (r2.counters name).isSome = (r1.counters name).isSome) ∧
  r2.registered = r1.registered

/-- The state in which `updateMetrics` goes on after a device: one more printed line when
the device returned an error. -/
def afterDevice (nicPath : String) (st1 : State) (err : Option GoError) : State :=
  match err with
  | none => st1
  | some e => st1.print (.updateError nicPath e)

/-- What a successful `filepath.Glob("/sys/class/infiniband/ionic_*")` returns: the
matching entries of that one directory, each once, so paths with pairwise distinct base
names. -/
structure Discovered where
  paths : List String
  distinct : (paths.map Base).Nodup

/-! ## Example inputs -/

/-- A device path as discovery returns it. -/
def ionic0 : String := "/sys/class/infiniband/ionic_0"

/-- A filesystem view with the counter directory of `ionic_0` holding two files,
`lifespan` and `rx_rdma_ucast_pkts`, with the given contents. -/
def exampleFS (lifespan pkts : String) : FS where
  stat := fun _ => .found
  readFile := fun path =>
    if path = "/sys/class/infiniband/ionic_0/ports/1/hw_counters/lifespan" then .data lifespan
    else if path = "/sys/class/infiniband/ionic_0/ports/1/hw_counters/rx_rdma_ucast_pkts" then
      .data pkts
    else .notExist

/-- The schema entry `rx_rdma_ucast_pkts`. -/
def rxUcastPkts : MetricDef :=
  ⟨"rx_rdma_ucast_pkts", "Received RDMA Unicast Packets", "counter"⟩

/-- The schema entry `lifespan`. -/
def lifespan : MetricDef := ⟨"lifespan", "NIC lifespan in seconds", "gauge"⟩

/-- A second device path. -/
def ionic1 : String := "/sys/class/infiniband/ionic_1"

/-- The state of the program right after `registerMetrics()`. -/
def freshState : State :=
  match registerMetrics with
  | .ok reg => ⟨reg, []⟩
  | .error _ => ⟨Registry.initial, []⟩

/-- The state after a first cycle in which `lifespan` reads 42 and `rx_rdma_ucast_pkts`
reads 10. -/
def afterFirstCycle : State :=
  match updateMetrics (exampleFS "42\n" "10\n") [ionic0] freshState with
  | .ok st => st
  | .error _ => freshState

/-- A filesystem view in which no device has a counter directory. -/
def noCountersFS : FS where
  stat := fun _ => .notExist
  readFile := fun _ => .data "7\n"

/-- A filesystem view in which `ports` is not a directory under any device: `os.Stat`
and `ioutil.ReadFile` below it fail with `ENOTDIR`, an error for which `os.IsNotExist` is
false. -/
def notDirFS : FS where
  stat := fun _ => .otherErr
  readFile := fun _ => .otherErr

/-! ## Shapes of the content of a counter file -/

/-- The number that a string of decimal digits denotes. -/
def decimalValue (ds : List Char) : Nat :=
  ds.foldl (fun a c => a * 10 + (c.toNat - '0'.toNat)) 0

/-- A decimal number as it is written: an optional sign, the digits before the point, the
digits after the point if there is one, and the exponent if there is one (its letter, its
optional sign, its digits). -/
structure DecimalText where
  sign : Option Bool
  int : List Char
  frac : Option (List Char)
  exp : Option (Char × Option Bool × List Char)

/-- The exponent of ten that is written, 0 if there is none. -/
def expValue : Option (Char × Option Bool × List Char) → Int
  | none => 0
  | some (_, s, ds) => (decimalValue ds : Int) * (if s = some true then -1 else 1)

/-- The number is written with a minus sign. -/
def DecimalText.neg (t : DecimalText) : Bool := decide (t.sign = some true)

/-- The magnitude of the number that the text denotes: the digits before and after the
point as one integer, times ten to the exponent less the number of digits after the
point. -/
def DecimalText.magnitude (t : DecimalText) : ℚ :=
  let f := t.frac.getD []
  let e : Int := expValue t.exp - f.length
  if 0 ≤ e then (decimalValue (t.int ++ f) : ℚ) * 10 ^ e.toNat
  else (decimalValue (t.int ++ f) : ℚ) / 10 ^ (-e).toNat

/-! # Properties -/

/-! ## Rounding -/

namespace F64
theorem bitLengthAux_spec (fuel n : Nat) (h : n ≤ fuel) :
    n < 2 ^ bitLengthAux fuel n ∧ (n ≠ 0 → 2 ^ (bitLengthAux fuel n - 1) ≤ n) := by
  induction fuel generalizing n with
  | zero =>
    have : n = 0 := Nat.le_zero.mp h
    subst this
    simp [bitLengthAux]
  | succ fuel ih =>
    rw [bitLengthAux]
    by_cases hn : n = 0
    · subst hn; simp
    · rw [if_neg hn]
      have hhalf : n / 2 ≤ fuel := by omega
      obtain ⟨h1, h2⟩ := ih (n / 2) hhalf
      refine ⟨?_, fun _ => ?_⟩
      · rw [pow_succ]; omega
      · simp only [Nat.add_sub_cancel]
        by_cases hz : n / 2 = 0
        · have hb : bitLengthAux fuel (n / 2) = 0 := by
            rw [hz]; cases fuel <;> simp [bitLengthAux]
          rw [hb]; simp; omega
        · have h3 := h2 hz
          have hpos : bitLengthAux fuel (n / 2) ≠ 0 := by
            intro h0; rw [h0] at h1; simp at h1; exact hz h1
          have : 2 ^ bitLengthAux fuel (n / 2) = 2 * 2 ^ (bitLengthAux fuel (n / 2) - 1) := by
            rw [← pow_succ']; congr 1; omega
          rw [this]; omega

theorem bitLength_spec (n : Nat) (hn : n ≠ 0) :
    2 ^ (bitLength n - 1) ≤ n ∧ n < 2 ^ bitLength n :=
  ⟨(bitLengthAux_spec n n (Nat.le_refl n)).2 hn, (bitLengthAux_spec n n (Nat.le_refl n)).1⟩

theorem roundHalfEven_one (x : Nat) : roundHalfEven x 1 = x := by
  simp [roundHalfEven, Nat.mod_one]

/-- Every integer below `2 ^ 53` is a `float64`: rounding leaves it as it is. -/
theorem round_nat (n : Nat) (h : n < 2 ^ 53) : round false (n : ℚ) = fin (n : ℚ) := by
  unfold round
  by_cases hn : n = 0
  · subst hn; simp [zeroOf]
  · have hpos : ¬ ((n : ℚ) ≤ 0) := by
      rw [not_le]; exact_mod_cast Nat.pos_of_ne_zero hn
    rw [if_neg hpos]
    obtain ⟨hlo, hhi⟩ := bitLength_spec n hn
    have hb1 : bitLength 1 = 1 := by decide
    have hbpos : 1 ≤ bitLength n := by
      by_contra hc
      have : bitLength n = 0 := by omega
      rw [this] at hhi; simp at hhi; exact hn hhi
    have hb53 : bitLength n ≤ 53 := by
      by_contra hc
      have h54 : 53 ≤ bitLength n - 1 := by omega
      have : 2 ^ 53 ≤ 2 ^ (bitLength n - 1) := Nat.pow_le_pow_right (by decide) h54
      omega
    have hfl : floorLog2 n 1 = (bitLength n : Int) - 1 := by
      unfold floorLog2
      simp only [hb1, Nat.cast_one]
      have h0 : (0 : Int) ≤ (bitLength n : Int) - 1 := by omega
      rw [if_pos h0]
      have ht : ((bitLength n : Int) - 1).toNat = bitLength n - 1 := by omega
      rw [ht, Nat.one_mul, if_pos hlo]
    simp only [Rat.num_natCast, Int.natAbs_ofNat, Rat.den_natCast, hfl]
    have hmax : max ((bitLength n : Int) - 1) (-1022) = (bitLength n : Int) - 1 := by
      apply max_eq_left; omega
    rw [hmax]
    by_cases hs : (0 : Int) ≤ (bitLength n : Int) - 1 - 52
    · have hb : bitLength n = 53 := by omega
      have ht : ((bitLength n : Int) - 1 - 52).toNat = 0 := by omega
      rw [if_pos hs]
      simp only [ht, pow_zero, Nat.mul_one, roundHalfEven_one]
      have hbig : ¬ (2 ^ 1024 ≤ n) := by
        have : (2:Nat) ^ 53 ≤ 2 ^ 1024 := Nat.pow_le_pow_right (by decide) (by decide)
        omega
      rw [if_neg hbig]
      simp
    · rw [if_neg hs]
      simp only [Nat.one_mul, roundHalfEven_one] 
      have hm : n * 2 ^ (-((bitLength n : Int) - 1 - 52)).toNat ≠ 0 := by
        apply Nat.mul_ne_zero hn
        exact pow_ne_zero _ (by decide)
      rw [if_neg hm]
      simp only [Bool.false_eq_true, if_false]
      congr 1
      push_cast
      field_simp

theorem ofNat_exact (n : Nat) (h : n ≤ 2 ^ 53) : ofNat n = fin (n : ℚ) := by
  unfold ofNat
  rcases Nat.lt_or_ge n (2 ^ 53) with h1 | h1
  · exact round_nat n h1
  · have : n = 2 ^ 53 := Nat.le_antisymm h h1
    subst this
    decide!

end F64

/-! ## The registry after `applyValue` -/

theorem Registry.value_eq_view (reg : Registry) (name nic : String) :
    reg.value name nic =
      match reg.gaugeAt name nic with
      | some x => x
      | none => (reg.counterAt name nic).join.map CounterSeries.get := by
  unfold Registry.value Registry.gaugeAt Registry.counterAt
  cases h1 : reg.metrics name <;> cases h2 : reg.counters name <;> simp

theorem agreeAt_value_eq {nic : String} {r1 r2 : Registry} (h : r1.AgreeAt nic r2)
    (name : String) : r1.value name nic = r2.value name nic := by
  rw [Registry.value_eq_view, Registry.value_eq_view, (h name).1, (h name).2]

theorem agreeAt_refl (nic : String) (r : Registry) : r.AgreeAt nic r :=
  fun _ => ⟨rfl, rfl⟩

theorem agreeAt_symm {nic : String} {r1 r2 : Registry} (h : r1.AgreeAt nic r2) :
    r2.AgreeAt nic r1 :=
  fun n => ⟨(h n).1.symm, (h n).2.symm⟩

theorem agreeAt_trans {nic : String} {r1 r2 r3 : Registry} (h : r1.AgreeAt nic r2)
    (h' : r2.AgreeAt nic r3) : r1.AgreeAt nic r3 :=
  fun n => ⟨(h n).1.trans (h' n).1, (h n).2.trans (h' n).2⟩

theorem applyValue_error {d : MetricDef} {nic : String} {v : F64} {reg : Registry} {p : Panic}
    (h : applyValue d nic v reg = .error p) : applyPanics d v reg ∧ p = .counterDecrease := by
  unfold applyValue at h
  split at h
  · split at h <;> simp at h
  · rename_i hg
    split at h
    · rename_i hc
      split at h
      · rename_i c hsome
        split at h
        · rename_i hlt
          simp at h
          exact ⟨⟨hg, hc, by simp [hsome], hlt⟩, h.symm⟩
        · simp at h
      · simp at h
    · simp at h

theorem applyValue_ok_of_not_panics {d : MetricDef} (nic : String) {v : F64} {reg : Registry}
    (h : ¬ applyPanics d v reg) : ∃ reg1, applyValue d nic v reg = .ok reg1 := by
  cases hr : applyValue d nic v reg with
  | ok r => exact ⟨r, rfl⟩
  | error p => exact absurd (applyValue_error hr).1 h

/-- Pointwise description of the registry after a successful `applyValue`. -/
theorem applyValue_view {d : MetricDef} {nic : String} {v : F64} {reg reg1 : Registry}
    (h : applyValue d nic v reg = .ok reg1) (name l : String) :
    reg1.gaugeAt name l =
        (if name = d.name ∧ d.kind = "gauge" ∧ l = nic
          then (reg.gaugeAt name l).map (fun _ => some v) else reg.gaugeAt name l) ∧
    reg1.counterAt name l =
        (if name = d.name ∧ d.kind ≠ "gauge" ∧ d.kind = "counter" ∧ l = nic
          then (reg.counterAt name l).map (fun old => some ((old.getD CounterSeries.zero).add v))
          else reg.counterAt name l) ∧
    reg1.registered = reg.registered := by
  unfold applyValue at h
  split at h
  · rename_i hg
    split at h
    · rename_i g hsome
      simp only [Except.ok.injEq] at h
      subst h
      refine ⟨?_, ?_, rfl⟩
      · simp only [Registry.gaugeAt, hg]
        by_cases hn : name = d.name
        · subst hn
          by_cases hl : l = nic <;> simp [hl, hsome, Vec.set]
        · simp [hn]
      · simp [Registry.counterAt, hg]
    · simp only [Except.ok.injEq] at h
      subst h
      rename_i hnone
      refine ⟨?_, ?_, rfl⟩
      · simp only [Registry.gaugeAt, hg]
        split
        · rename_i hc
          rw [hc.1, hnone]; rfl
        · rfl
      · simp [Registry.counterAt, hg]
  · rename_i hg
    split at h
    · rename_i hc
      split at h
      · rename_i c hsome
        split at h
        · simp at h
        · simp only [Except.ok.injEq] at h
          subst h
          refine ⟨?_, ?_, rfl⟩
          · simp [Registry.gaugeAt, hg]
          · simp only [Registry.counterAt, hg, hc]
            by_cases hn : name = d.name
            · subst hn
              by_cases hl : l = nic <;> simp [hl, hsome, Vec.set]
            · simp [hn]
      · simp only [Except.ok.injEq] at h
        subst h
        rename_i hnone
        refine ⟨?_, ?_, rfl⟩
        · simp [Registry.gaugeAt, hg]
        · simp only [Registry.counterAt, hg, hc]
          split
          · rename_i hcc
            rw [hcc.1, hnone]; rfl
          · rfl
    · rename_i hc
      simp only [Except.ok.injEq] at h
      subst h
      simp [hg, hc]

/-! ## The loop over the schema -/

theorem State.print_reg (st : State) (line : LogLine) : (st.print line).reg = st.reg := rfl

theorem metricLoop_cons (fs : FS) (hw nic : String) (d : MetricDef) (rest : List MetricDef)
    (st : State) :
    metricLoop fs hw nic (d :: rest) st =
      match fs.readFile (Join hw d.name) with
      | .notExist => metricLoop fs hw nic rest (st.print (.metricMissing d.name nic))
      | .otherErr => .ok (st, some (.readError (Join hw d.name)))
      | .data content =>
        match parseValue content with
        | .error e => .ok (st, some (.parseError (Join hw d.name) e))
        | .ok value =>
          match applyValue d nic value st.reg with
          | .error p => .error p
          | .ok reg1 => metricLoop fs hw nic rest { st with reg := reg1 } := by
  rw [metricLoop]

/-- A relation that every successful `applyValue` satisfies holds between the registry
before and after the loop. -/
theorem metricLoop_rel (R : Registry → Registry → Prop) (hrefl : ∀ r, R r r)
    (htrans : ∀ a b c, R a b → R b c → R a c) (fs : FS) (hw nic : String)
    (defs : List MetricDef)
    (hstep : ∀ e ∈ defs, ∀ v r r1, applyValue e nic v r = .ok r1 → R r r1)
    (st st1 : State) (err : Option GoError)
    (h : metricLoop fs hw nic defs st = .ok (st1, err)) : R st.reg st1.reg := by
  induction defs generalizing st with
  | nil =>
    simp only [metricLoop, Except.ok.injEq, Prod.mk.injEq] at h
    rw [← h.1]; exact hrefl _
  | cons x rest ih =>
    have ih1 := ih (fun e he => hstep e (List.mem_cons_of_mem _ he))
    unfold metricLoop at h
    simp only at h
    split at h
    · exact ih1 (st.print _) h
    · simp only [Except.ok.injEq, Prod.mk.injEq] at h
      rw [← h.1]; exact hrefl _
    · split at h
      · simp only [Except.ok.injEq, Prod.mk.injEq] at h
        rw [← h.1]; exact hrefl _
      · split at h
        · simp at h
        · rename_i v _ reg1 happ
          exact htrans _ _ _ (hstep x (List.mem_cons_self _ _) _ _ _ happ) (ih1 _ h)

theorem sameShape_refl (r : Registry) : r.SameShape r := ⟨fun _ => rfl, fun _ => rfl, rfl⟩

theorem sameShape_trans {a b c : Registry} (h1 : a.SameShape b) (h2 : b.SameShape c) :
    a.SameShape c :=
  ⟨fun n => (h2.1 n).trans (h1.1 n), fun n => (h2.2.1 n).trans (h1.2.1 n), h2.2.2.trans h1.2.2⟩

theorem applyValue_shape {d : MetricDef} {nic : String} {v : F64} {reg reg1 : Registry}
    (h : applyValue d nic v reg = .ok reg1) : reg.SameShape reg1 := by
  refine ⟨fun n => ?_, fun n => ?_, (applyValue_view h "" "").2.2⟩
  · have := (applyValue_view h n nic).1
    have e1 : (reg1.metrics n).isSome = (reg1.gaugeAt n nic).isSome := by simp [Registry.gaugeAt]
    have e2 : (reg.metrics n).isSome = (reg.gaugeAt n nic).isSome := by simp [Registry.gaugeAt]
    rw [e1, e2, this]
    split <;> simp
  · have := (applyValue_view h n nic).2.1
    have e1 : (reg1.counters n).isSome = (reg1.counterAt n nic).isSome := by simp [Registry.counterAt]
    have e2 : (reg.counters n).isSome = (reg.counterAt n nic).isSome := by simp [Registry.counterAt]
    rw [e1, e2, this]
    split <;> simp

theorem applyValue_frame_label {d : MetricDef} {nic : String} {v : F64} {reg reg1 : Registry}
    (h : applyValue d nic v reg = .ok reg1) {l : String} (hl : l ≠ nic) : reg.AgreeAt l reg1 := by
  intro n
  have := applyValue_view h n l
  rw [this.1, this.2.1]
  simp [hl]

theorem applyValue_frame_name {d : MetricDef} {nic : String} {v : F64} {reg reg1 : Registry}
    (h : applyValue d nic v reg = .ok reg1) {n : String} (hn : n ≠ d.name) (l : String) :
    reg1.gaugeAt n l = reg.gaugeAt n l ∧ reg1.counterAt n l = reg.counterAt n l := by
  have := applyValue_view h n l
  rw [this.1, this.2.1]
  simp [hn]

/-- The loop creates and removes no collector. -/
theorem metricLoop_shape {fs : FS} {hw nic : String} {defs : List MetricDef} {st st1 : State}
    {err : Option GoError} (h : metricLoop fs hw nic defs st = .ok (st1, err)) :
    st.reg.SameShape st1.reg :=
  metricLoop_rel Registry.SameShape sameShape_refl
    (fun _ _ _ h1 h2 => sameShape_trans h1 h2) fs hw nic defs
    (fun _ _ _ _ _ happ => applyValue_shape happ) st st1 err h

/-- The loop for the device labelled `nic` changes no series of another label. -/
theorem metricLoop_frame_label {fs : FS} {hw nic : String} {defs : List MetricDef}
    {st st1 : State} {err : Option GoError}
    (h : metricLoop fs hw nic defs st = .ok (st1, err)) {l : String} (hl : l ≠ nic) :
    st.reg.AgreeAt l st1.reg :=
  metricLoop_rel (Registry.AgreeAt l) (agreeAt_refl l)
    (fun _ _ _ h1 h2 => agreeAt_trans h1 h2) fs hw nic defs
    (fun _ _ _ _ _ happ => applyValue_frame_label happ hl) st st1 err h

/-- The loop changes no series of a metric that is not among the definitions it runs over. -/
theorem metricLoop_frame_name {fs : FS} {hw nic : String} {defs : List MetricDef}
    {st st1 : State} {err : Option GoError}
    (h : metricLoop fs hw nic defs st = .ok (st1, err)) {n : String}
    (hn : ∀ e ∈ defs, e.name ≠ n) (l : String) :
    st1.reg.gaugeAt n l = st.reg.gaugeAt n l ∧ st1.reg.counterAt n l = st.reg.counterAt n l :=
  metricLoop_rel
    (fun r r1 => r1.gaugeAt n l = r.gaugeAt n l ∧ r1.counterAt n l = r.counterAt n l)
    (fun _ => ⟨rfl, rfl⟩)
    (fun _ _ _ h1 h2 => ⟨h2.1.trans h1.1, h2.2.trans h1.2⟩) fs hw nic defs
    (fun e he _ _ _ happ => applyValue_frame_name happ (fun hh => hn e he hh.symm) l) st st1 err h

/-- Effect of the loop on the series of one schema entry: untouched when its file was not
successfully read, otherwise the gauge is overwritten or the counter increased. -/
theorem metricLoop_effect (fs : FS) (hw nic : String) (defs : List MetricDef)
    (hnd : (defs.map (fun e => e.name)).Nodup) (e : MetricDef) (he : e ∈ defs)
    (st st1 : State) (err : Option GoError)
    (h : metricLoop fs hw nic defs st = .ok (st1, err)) :
    match readOf fs hw defs e.name with
    | none => st1.reg.gaugeAt e.name nic = st.reg.gaugeAt e.name nic ∧
        st1.reg.counterAt e.name nic = st.reg.counterAt e.name nic
    | some v => st1.reg.gaugeAt e.name nic = gaugeSet e.kind v (st.reg.gaugeAt e.name nic) ∧
        st1.reg.counterAt e.name nic = counterAdd e.kind v (st.reg.counterAt e.name nic) := by
  induction defs generalizing st with
  | nil => cases he
  | cons x rest ih =>
    simp only [List.map_cons, List.nodup_cons, List.mem_map, not_exists, not_and] at hnd
    have hrest : x.name = e.name → ∀ y ∈ rest, y.name ≠ e.name := by
      intro hxe y hy hye
      exact hnd.1 y hy (hye.trans hxe.symm)
    have hmem : x.name ≠ e.name → e ∈ rest := by
      intro hne
      rcases List.mem_cons.mp he with h1 | h1
      · exact absurd (by rw [h1]) hne
      · exact h1
    have hkind : x.name = e.name → x.kind = e.kind := by
      intro hxe
      rcases List.mem_cons.mp he with h1 | h1
      · rw [h1]
      · exact absurd hxe.symm (hnd.1 e h1)
    unfold metricLoop at h
    unfold readOf
    simp only at h ⊢
    split at h
    · rename_i hread
      try simp only [hread]
      by_cases hxe : x.name = e.name
      · simp only [hxe, if_true]
        exact metricLoop_frame_name h (hrest hxe) nic
      · simp only [hxe, if_false]
        exact ih hnd.2 (hmem hxe) (st.print _) h
    · rename_i hread
      try simp only [hread]
      simp only [Except.ok.injEq, Prod.mk.injEq] at h
      rw [← h.1]; exact ⟨rfl, rfl⟩
    · rename_i content hread
      try simp only [hread]
      split at h
      · rename_i perr hparse
        try simp only [hparse]
        simp only [Except.ok.injEq, Prod.mk.injEq] at h
        rw [← h.1]; exact ⟨rfl, rfl⟩
      · rename_i v hparse
        try simp only [hparse]
        split at h
        · simp at h
        · rename_i reg1 happ
          have hview := applyValue_view happ e.name nic
          by_cases hxe : x.name = e.name
          · simp only [hxe, if_true]
            have hfr := metricLoop_frame_name h (hrest hxe) nic
            simp only at hfr
            rw [hfr.1, hfr.2, hview.1, hview.2.1]
            simp [gaugeSet, counterAdd, hxe, hkind hxe]
          · simp only [hxe, if_false]
            have hi := ih hnd.2 (hmem hxe) _ h
            simp only at hi
            have hne : e.name ≠ x.name := fun hh => hxe hh.symm
            rw [hview.1, hview.2.1] at hi
            simpa [hne] using hi

/-! ## One device, one cycle -/

theorem parseAndUpdateMetricsOver_skip {defs : List MetricDef} {fs : FS} {st : State}
    {nicPath : String} (h : fs.stat (hwCounters nicPath) = .notExist) :
    parseAndUpdateMetricsOver defs fs st nicPath = .ok (st.print (.nicSkipped (Base nicPath)), none) := by
  unfold parseAndUpdateMetricsOver
  simp only [hwCounters] at h
  simp [h]

theorem parseAndUpdateMetricsOver_loop {defs : List MetricDef} {fs : FS} {st : State}
    {nicPath : String} (h : fs.stat (hwCounters nicPath) ≠ .notExist) :
    parseAndUpdateMetricsOver defs fs st nicPath =
      metricLoop fs (hwCounters nicPath) (Base nicPath) defs st := by
  unfold parseAndUpdateMetricsOver
  simp only [hwCounters] at h
  simp [h, hwCounters]

/-- A relation that every successful `applyValue` for the device satisfies holds between
the registry before and after `parseAndUpdateMetrics`. -/
theorem parseAndUpdateMetricsOver_rel (R : Registry → Registry → Prop) (hrefl : ∀ r, R r r)
    (htrans : ∀ a b c, R a b → R b c → R a c) (defs : List MetricDef) (fs : FS)
    (nicPath : String)
    (hstep : ∀ e ∈ defs, ∀ v r r1, applyValue e (Base nicPath) v r = .ok r1 → R r r1)
    (st st1 : State) (err : Option GoError)
    (h : parseAndUpdateMetricsOver defs fs st nicPath = .ok (st1, err)) : R st.reg st1.reg := by
  by_cases hs : fs.stat (hwCounters nicPath) = .notExist
  · rw [parseAndUpdateMetricsOver_skip hs] at h
    simp only [Except.ok.injEq, Prod.mk.injEq] at h
    rw [← h.1]; exact hrefl _
  · rw [parseAndUpdateMetricsOver_loop hs] at h
    exact metricLoop_rel R hrefl htrans fs _ _ defs hstep st st1 err h

/-- Effect of `parseAndUpdateMetrics(nicPath)` on the series of a schema entry for this
device, in terms of what was successfully read. -/
theorem parseAndUpdateMetrics_effect (fs : FS) (nicPath : String)
    (hnd : (metricDefinitions.map (fun e => e.name)).Nodup)
    (e : MetricDef) (he : e ∈ metricDefinitions) (st st1 : State) (err : Option GoError)
    (h : parseAndUpdateMetrics fs st nicPath = .ok (st1, err)) :
    match successfulRead fs nicPath e.name with
    | none => st1.reg.gaugeAt e.name (Base nicPath) = st.reg.gaugeAt e.name (Base nicPath) ∧
        st1.reg.counterAt e.name (Base nicPath) = st.reg.counterAt e.name (Base nicPath)
    | some v =>
        st1.reg.gaugeAt e.name (Base nicPath) = gaugeSet e.kind v (st.reg.gaugeAt e.name (Base nicPath)) ∧
        st1.reg.counterAt e.name (Base nicPath) = counterAdd e.kind v (st.reg.counterAt e.name (Base nicPath)) := by
  unfold parseAndUpdateMetrics at h
  unfold successfulRead
  by_cases hs : fs.stat (hwCounters nicPath) = .notExist
  · rw [parseAndUpdateMetricsOver_skip hs] at h
    simp only [Except.ok.injEq, Prod.mk.injEq] at h
    simp only [hs, if_true]
    rw [← h.1]; exact ⟨rfl, rfl⟩
  · rw [parseAndUpdateMetricsOver_loop hs] at h
    simp only [hs, if_false]
    exact metricLoop_effect fs _ _ metricDefinitions hnd e he st st1 err h

/-- The loop does not panic when no counter entry reads a negative value. -/
theorem metricLoop_ok (fs : FS) (hw nic : String) (defs : List MetricDef)
    (hsafe : ∀ e ∈ defs, ∀ content v, fs.readFile (Join hw e.name) = .data content →
      parseValue content = .ok v → e.kind = "counter" → v.ltZero = false)
    (st : State) : ∃ st1 err, metricLoop fs hw nic defs st = .ok (st1, err) := by
  induction defs generalizing st with
  | nil => exact ⟨st, none, rfl⟩
  | cons x rest ih =>
    have ih1 := ih (fun e he => hsafe e (List.mem_cons_of_mem _ he))
    unfold metricLoop
    simp only
    cases hread : fs.readFile (Join hw x.name) with
    | notExist => exact ih1 _
    | otherErr => exact ⟨_, _, rfl⟩
    | data content =>
      simp only
      cases hparse : parseValue content with
      | error perr => exact ⟨_, _, rfl⟩
      | ok v =>
        simp only
        have hnp : ¬ applyPanics x v st.reg := by
          intro hp
          have := hsafe x (List.mem_cons_self _ _) content v hread hparse hp.2.1
          rw [hp.2.2.2] at this
          cases this
        obtain ⟨reg1, happ⟩ := applyValue_ok_of_not_panics nic hnp
        rw [happ]
        exact ih1 _

theorem noNegativeCounter_safe {fs : FS} {nicPath : String}
    (h : noNegativeCounter fs nicPath = true) :
    ∀ e ∈ metricDefinitions, ∀ content v,
      fs.readFile (Join (hwCounters nicPath) e.name) = .data content →
      parseValue content = .ok v → e.kind = "counter" → v.ltZero = false := by
  intro e he content v hread hparse hk
  unfold noNegativeCounter at h
  rw [List.all_eq_true] at h
  have := h e he
  simp only [hread, hparse, hk, decide_True, Bool.true_and, Bool.not_eq_true'] at this
  exact this

/-- The call of `parseAndUpdateMetrics` returns (no panic) when no counter file of the device holds a
negative number. -/
theorem parseAndUpdateMetrics_ok (fs : FS) (nicPath : String) (st : State)
    (h : noNegativeCounter fs nicPath = true) :
    ∃ st1 err, parseAndUpdateMetrics fs st nicPath = .ok (st1, err) := by
  unfold parseAndUpdateMetrics
  by_cases hs : fs.stat (hwCounters nicPath) = .notExist
  · rw [parseAndUpdateMetricsOver_skip hs]; exact ⟨_, _, rfl⟩
  · rw [parseAndUpdateMetricsOver_loop hs]
    exact metricLoop_ok fs _ _ _ (noNegativeCounter_safe h) st

/-! ## One cycle over the device list -/

theorem updateMetrics_cons (fs : FS) (nicPath : String) (rest : List String) (st : State) :
    updateMetrics fs (nicPath :: rest) st =
      match parseAndUpdateMetrics fs st nicPath with
      | .error p => .error p
      | .ok (st1, none) => updateMetrics fs rest st1
      | .ok (st1, some err) => updateMetrics fs rest (st1.print (.updateError nicPath err)) := by
  rw [updateMetrics]

theorem updateMetrics_cons_ok {fs : FS} {nicPath : String} {rest : List String} {st st1 : State}
    {err : Option GoError} (h : parseAndUpdateMetrics fs st nicPath = .ok (st1, err)) :
    updateMetrics fs (nicPath :: rest) st = updateMetrics fs rest (afterDevice nicPath st1 err) := by
  rw [updateMetrics_cons, h]
  cases err <;> rfl

theorem updateMetrics_cons_inv {fs : FS} {nicPath : String} {rest : List String} {st st2 : State}
    (h : updateMetrics fs (nicPath :: rest) st = .ok st2) :
    ∃ st1 err, parseAndUpdateMetrics fs st nicPath = .ok (st1, err) ∧
      updateMetrics fs rest (afterDevice nicPath st1 err) = .ok st2 := by
  cases hp : parseAndUpdateMetrics fs st nicPath with
  | error p => rw [updateMetrics_cons, hp] at h; cases h
  | ok r =>
    obtain ⟨st1, err⟩ := r
    rw [updateMetrics_cons_ok hp] at h
    exact ⟨st1, err, rfl, h⟩

theorem afterDevice_reg (nicPath : String) (st1 : State) (err : Option GoError) :
    (afterDevice nicPath st1 err).reg = st1.reg := by
  cases err <;> rfl

/-- A relation that every successful `applyValue` for a device of the list satisfies
holds between the registry before and after the cycle. -/
theorem updateMetrics_rel (R : Registry → Registry → Prop) (hrefl : ∀ r, R r r)
    (htrans : ∀ a b c, R a b → R b c → R a c) (fs : FS) (nicPaths : List String)
    (hstep : ∀ p ∈ nicPaths, ∀ e v r r1, applyValue e (Base p) v r = .ok r1 → R r r1)
    (st st2 : State) (h : updateMetrics fs nicPaths st = .ok st2) : R st.reg st2.reg := by
  induction nicPaths generalizing st with
  | nil =>
    simp only [updateMetrics, Except.ok.injEq] at h
    rw [← h]; exact hrefl _
  | cons p rest ih =>
    obtain ⟨st1, err, hp, hrest⟩ := updateMetrics_cons_inv h
    have h1 : R st.reg st1.reg :=
      parseAndUpdateMetricsOver_rel R hrefl htrans metricDefinitions fs p
        (fun e _ v r r1 happ => hstep p (List.mem_cons_self _ _) e v r r1 happ) st st1 err hp
    have h2 := ih (fun q hq => hstep q (List.mem_cons_of_mem _ hq)) _ hrest
    rw [afterDevice_reg] at h2
    exact htrans _ _ _ h1 h2

/-- A cycle creates and removes no collector. -/
theorem updateMetrics_shape {fs : FS} {nicPaths : List String} {st st2 : State}
    (h : updateMetrics fs nicPaths st = .ok st2) : st.reg.SameShape st2.reg :=
  updateMetrics_rel Registry.SameShape sameShape_refl (fun _ _ _ h1 h2 => sameShape_trans h1 h2)
    fs nicPaths (fun _ _ _ _ _ _ happ => applyValue_shape happ) st st2 h

/-- A cycle changes no series whose label is not the base name of a device of the list. -/
theorem updateMetrics_frame_label {fs : FS} {nicPaths : List String} {st st2 : State}
    (h : updateMetrics fs nicPaths st = .ok st2) {l : String}
    (hl : ∀ p ∈ nicPaths, Base p ≠ l) : st.reg.AgreeAt l st2.reg :=
  updateMetrics_rel (Registry.AgreeAt l) (agreeAt_refl l) (fun _ _ _ h1 h2 => agreeAt_trans h1 h2)
    fs nicPaths
    (fun p hp _ _ _ _ happ => applyValue_frame_label happ (fun hh => hl p hp hh.symm)) st st2 h

/-- Effect of one cycle on the series of a schema entry for a device of the list (base
names pairwise distinct): that of the device's own `parseAndUpdateMetrics`. -/
theorem updateMetrics_effect (fs : FS) (nicPaths : List String)
    (hlab : (nicPaths.map Base).Nodup) (d : String) (hd : d ∈ nicPaths)
    (hnd : (metricDefinitions.map (fun e => e.name)).Nodup)
    (e : MetricDef) (he : e ∈ metricDefinitions) (st st2 : State)
    (h : updateMetrics fs nicPaths st = .ok st2) :
    match successfulRead fs d e.name with
    | none => st2.reg.gaugeAt e.name (Base d) = st.reg.gaugeAt e.name (Base d) ∧
        st2.reg.counterAt e.name (Base d) = st.reg.counterAt e.name (Base d)
    | some v =>
        st2.reg.gaugeAt e.name (Base d) = gaugeSet e.kind v (st.reg.gaugeAt e.name (Base d)) ∧
        st2.reg.counterAt e.name (Base d) = counterAdd e.kind v (st.reg.counterAt e.name (Base d)) := by
  induction nicPaths generalizing st with
  | nil => cases hd
  | cons p rest ih =>
    simp only [List.map_cons, List.nodup_cons, List.mem_map, not_exists, not_and] at hlab
    obtain ⟨st1, err, hp, hrest⟩ := updateMetrics_cons_inv h
    by_cases hpd : p = d
    · subst hpd
      have hfr := updateMetrics_frame_label hrest (l := Base p) (fun q hq => hlab.1 q hq)
      rw [afterDevice_reg] at hfr
      have heff := parseAndUpdateMetrics_effect fs p hnd e he st st1 err hp
      rw [← (hfr e.name).1, ← (hfr e.name).2]
      exact heff
    · have hdrest : d ∈ rest := by
        rcases List.mem_cons.mp hd with h1 | h1
        · exact absurd h1.symm hpd
        · exact h1
      have hne : Base d ≠ Base p := hlab.1 d hdrest
      have hfr : st.reg.AgreeAt (Base d) st1.reg :=
        parseAndUpdateMetricsOver_rel (Registry.AgreeAt (Base d)) (agreeAt_refl _)
          (fun _ _ _ h1 h2 => agreeAt_trans h1 h2) metricDefinitions fs p
          (fun _ _ _ _ _ happ => applyValue_frame_label happ hne) st st1 err hp
      have hi := ih hlab.2 hdrest _ hrest
      rw [afterDevice_reg, ← (hfr e.name).1, ← (hfr e.name).2] at hi
      exact hi

/-- A cycle returns (no panic) when no counter file of a device of the list holds a
negative number. -/
theorem updateMetrics_ok (fs : FS) (nicPaths : List String)
    (h : ∀ p ∈ nicPaths, noNegativeCounter fs p = true) (st : State) :
    ∃ st2, updateMetrics fs nicPaths st = .ok st2 := by
  induction nicPaths generalizing st with
  | nil => exact ⟨st, rfl⟩
  | cons p rest ih =>
    obtain ⟨st1, err, hp⟩ := parseAndUpdateMetrics_ok fs p st (h p (List.mem_cons_self _ _))
    rw [updateMetrics_cons_ok hp]
    exact ih (fun q hq => h q (List.mem_cons_of_mem _ hq)) _

/-! ## Registration -/

/-- The names of the schema are pairwise distinct. -/
theorem schema_names_nodup : (metricDefinitions.map (fun e => e.name)).Nodup := by
  decide

theorem registerMetrics_ok : ∃ reg, registerMetrics = .ok reg := by
  have h : registerMetrics.isOk = true := by decide!
  cases hr : registerMetrics with
  | ok reg => exact ⟨reg, rfl⟩
  | error p => rw [hr] at h; cases h

theorem MustRegister_views {reg reg1 : Registry} {name : String}
    (h : MustRegister reg name = .ok reg1) :
    reg1.metrics = reg.metrics ∧ reg1.counters = reg.counters := by
  unfold MustRegister at h
  split at h
  · cases h
  · simp only [Except.ok.injEq] at h
    subst h
    exact ⟨rfl, rfl⟩

/-- Every vector that `registerMetrics` stores is new: it has no series. -/
theorem registerLoop_views (defs : List MetricDef) (r0 r : Registry)
    (h : registerLoop defs r0 = .ok r) (n l : String) :
    (r.gaugeAt n l = r0.gaugeAt n l ∨ r.gaugeAt n l = some none) ∧
    (r.counterAt n l = r0.counterAt n l ∨ r.counterAt n l = some none) := by
  induction defs generalizing r0 with
  | nil =>
    simp only [registerLoop, Except.ok.injEq] at h
    subst h
    exact ⟨Or.inl rfl, Or.inl rfl⟩
  | cons x rest ih =>
    unfold registerLoop at h
    split at h
    · split at h
      · rename_i reg1 hreg
        have hv := MustRegister_views hreg
        have hi := ih _ h
        have hg : reg1.gaugeAt n l = r0.gaugeAt n l ∨ reg1.gaugeAt n l = some none := by
          simp only [Registry.gaugeAt, hv.1]
          by_cases hn : n = x.name
          · right; simp [hn, Vec.empty]
          · left; simp [hn]
        have hc : reg1.counterAt n l = r0.counterAt n l := by
          simp only [Registry.counterAt, hv.2]
        refine ⟨?_, ?_⟩
        · rcases hi.1 with h1 | h1
          · rw [h1]; exact hg
          · exact Or.inr h1
        · rcases hi.2 with h1 | h1
          · rw [h1, hc]; exact Or.inl rfl
          · exact Or.inr h1
      · cases h
    · split at h
      · split at h
        · rename_i reg1 hreg
          have hv := MustRegister_views hreg
          have hi := ih _ h
          have hc : reg1.counterAt n l = r0.counterAt n l ∨ reg1.counterAt n l = some none := by
            simp only [Registry.counterAt, hv.2]
            by_cases hn : n = x.name
            · right; simp [hn, Vec.empty]
            · left; simp [hn]
          have hg : reg1.gaugeAt n l = r0.gaugeAt n l := by
            simp only [Registry.gaugeAt, hv.1]
          refine ⟨?_, ?_⟩
          · rcases hi.1 with h1 | h1
            · rw [h1, hg]; exact Or.inl rfl
            · exact Or.inr h1
          · rcases hi.2 with h1 | h1
            · rw [h1]; exact hc
            · exact Or.inr h1
        · cases h
      · exact ih _ h

/-- The registry right after `registerMetrics`: an empty gauge vector for every gauge of
the schema, an empty counter vector (and no gauge vector) for every counter. -/
theorem fresh_registry {reg0 : Registry} (h : registerMetrics = .ok reg0) (e : MetricDef)
    (he : e ∈ metricDefinitions) (l : String) :
    (e.kind = "gauge" → reg0.gaugeAt e.name l = some none) ∧
    (e.kind = "counter" → reg0.gaugeAt e.name l = none ∧ reg0.counterAt e.name l = some none) := by
  have hshape : (match registerMetrics with
      | .ok r => metricDefinitions.all (fun e =>
          if e.kind = "gauge" then (r.metrics e.name).isSome
          else (r.metrics e.name).isNone && (r.counters e.name).isSome)
      | .error _ => false) = true := by decide!
  rw [h] at hshape
  simp only [List.all_eq_true] at hshape
  have hs := hshape e he
  have hv := registerLoop_views metricDefinitions Registry.initial reg0 h e.name l
  have hi1 : Registry.initial.gaugeAt e.name l = none := rfl
  have hi2 : Registry.initial.counterAt e.name l = none := rfl
  rw [hi1, hi2] at hv
  constructor
  · intro hk
    simp only [hk, if_true] at hs
    rcases hv.1 with h1 | h1
    · simp only [Registry.gaugeAt, Option.map_eq_none'] at h1
      rw [h1] at hs; cases hs
    · exact h1
  · intro hk
    have hng : e.kind ≠ "gauge" := by rw [hk]; decide
    simp only [hng, if_false, Bool.and_eq_true, Option.isNone_iff_eq_none] at hs
    constructor
    · simp [Registry.gaugeAt, hs.1]
    · rcases hv.2 with h1 | h1
      · simp only [Registry.counterAt, Option.map_eq_none'] at h1
        rw [h1] at hs; cases hs.2
      · exact h1

/-- Claim C9: The names of the entries of `metricDefinitions` are pairwise distinct, so
`registerMetrics` registers every name once: it does not panic and the registry then
holds exactly the schema names, in schema order. -/
theorem C9_schema_names_distinct :
    (metricDefinitions.map (fun e => e.name)).Nodup ∧
    ∃ reg, registerMetrics = .ok reg ∧
      reg.registered = metricDefinitions.map (fun e => e.name) := by
  refine ⟨by decide, ?_⟩
  have h : (match registerMetrics with
      | .ok r => decide (r.registered = metricDefinitions.map (fun e => e.name))
      | .error _ => false) = true := by decide!
  cases hr : registerMetrics with
  | ok reg =>
    rw [hr] at h
    exact ⟨reg, rfl, of_decide_eq_true h⟩
  | error p => rw [hr] at h; cases h

/-! ## The scheduler -/

theorem scheduler_cons_inv {nicPaths : List String} {fs : FS} {later : List FS} {st st2 : State}
    (h : scheduler nicPaths (fs :: later) st = .ok st2) :
    ∃ st1, updateMetrics fs nicPaths st = .ok st1 ∧ scheduler nicPaths later st1 = .ok st2 := by
  unfold scheduler at h
  split at h
  · cases h
  · rename_i st1 h1
    exact ⟨st1, h1, h⟩

/-- The scheduler keeps running when no counter file of a listed device ever holds a
negative number. -/
theorem scheduler_ok (nicPaths : List String) (cycles : List FS)
    (h : ∀ fs ∈ cycles, ∀ p ∈ nicPaths, noNegativeCounter fs p = true) (st : State) :
    ∃ st2, scheduler nicPaths cycles st = .ok st2 := by
  induction cycles generalizing st with
  | nil => exact ⟨st, rfl⟩
  | cons fs later ih =>
    obtain ⟨st1, h1⟩ := updateMetrics_ok fs nicPaths (h fs (List.mem_cons_self _ _)) st
    unfold scheduler
    rw [h1]
    exact ih (fun f hf => h f (List.mem_cons_of_mem _ hf)) st1

theorem foldl_accumulate_some (vs : List F64) (a : CounterSeries) :
    vs.foldl (fun acc v => some ((Option.getD acc CounterSeries.zero).add v)) (some a) =
      some (vs.foldl CounterSeries.add a) := by
  induction vs generalizing a with
  | nil => rfl
  | cons v rest ih => simp only [List.foldl_cons, Option.getD_some]; exact ih _

/-- An integer increment up to `2 ^ 53` goes to the `uint64` part of the counter. -/
theorem counterSeries_add_nat (c : CounterSeries) (n : Nat) (h : n ≤ 2 ^ 53) :
    c.add (F64.fin (n : ℚ)) = { c with valInt := (c.valInt + n) % 2 ^ 64 } := by
  have hlt : (n : ℚ) < 2 ^ 64 := by
    have h1 : n < 2 ^ 64 := lt_of_le_of_lt h (by decide)
    exact_mod_cast h1
  have hconv : (F64.fin (n : ℚ)).toUint64 = n := by
    simp [F64.toUint64, hlt]
  unfold CounterSeries.add
  simp only [hconv, F64.ofNat_exact n h]
  have heq : (F64.fin (n : ℚ)).eq (F64.fin (n : ℚ)) = true := by
    simp [F64.eq]
  rw [if_pos heq]

/-- Integer increments whose total stays up to `2 ^ 53` add up in the `uint64` part. -/
theorem foldl_counter_nat (ns : List Nat) (c : CounterSeries)
    (h : c.valInt + ns.sum ≤ 2 ^ 53) :
    (ns.map (fun (n : Nat) => F64.fin (n : ℚ))).foldl CounterSeries.add c =
      { c with valInt := c.valInt + ns.sum } := by
  induction ns generalizing c with
  | nil => simp
  | cons n rest ih =>
    simp only [List.sum_cons] at h
    have hn : n ≤ 2 ^ 53 := by omega
    have hmod : (c.valInt + n) % 2 ^ 64 = c.valInt + n := by
      apply Nat.mod_eq_of_lt
      have : (2 : Nat) ^ 53 < 2 ^ 64 := by decide
      omega
    simp only [List.map_cons, List.foldl_cons, counterSeries_add_nat c n hn, hmod]
    rw [ih]
    · simp only [List.sum_cons]
      congr 1
      omega
    · show c.valInt + n + rest.sum ≤ 2 ^ 53
      omega

/-- A counter that only got integer increments, with a total up to `2 ^ 53`, shows the
total. -/
theorem counterSeries_get_nat (s : Nat) (h : s ≤ 2 ^ 53) :
    CounterSeries.get ⟨F64.fin 0, s⟩ = F64.fin (s : ℚ) := by
  unfold CounterSeries.get
  simp only [F64.ofNat_exact s h, F64.add, zero_add]
  by_cases hs : (s : ℚ) = 0
  · rw [if_pos hs, hs]
  · rw [if_neg hs]
    have hnn : ¬ ((s : ℚ) < 0) := not_lt.mpr (Nat.cast_nonneg s)
    have habs : |(s : ℚ)| = (s : ℚ) := abs_of_nonneg (Nat.cast_nonneg s)
    unfold F64.ofRat
    rw [habs, decide_eq_false hnn]
    exact F64.ofNat_exact s h

/-- One cycle adds the value read to the counter series of the device. -/
theorem updateMetrics_counter {fs : FS} {nicPaths : List String} {st st2 : State}
    (h : updateMetrics fs nicPaths st = .ok st2) (hlab : (nicPaths.map Base).Nodup)
    {d : String} (hd : d ∈ nicPaths) {m : MetricDef} (hm : m ∈ metricDefinitions)
    (hk : m.kind = "counter") {v : F64} (hread : successfulRead fs d m.name = some v)
    {x : Option CounterSeries} (hg : st.reg.gaugeAt m.name (Base d) = none)
    (hc : st.reg.counterAt m.name (Base d) = some x) :
    st2.reg.gaugeAt m.name (Base d) = none ∧
    st2.reg.counterAt m.name (Base d) = some (some ((x.getD CounterSeries.zero).add v)) := by
  have heff := updateMetrics_effect fs nicPaths hlab d hd schema_names_nodup m hm st st2 h
  rw [hread] at heff
  simp only at heff
  have hng : ¬ ("counter" = "gauge") := by decide
  rw [heff.1, heff.2, hg, hc, hk]
  simp [gaugeSet, counterAdd, hng]

/-- Over several cycles the counter series takes the values read, one `Add` per cycle. -/
theorem scheduler_counter (nicPaths : List String) (hlab : (nicPaths.map Base).Nodup)
    (d : String) (hd : d ∈ nicPaths) (m : MetricDef) (hm : m ∈ metricDefinitions)
    (hk : m.kind = "counter") (cycles : List FS) (vs : List F64)
    (hread : List.Forall₂ (fun fs v => successfulRead fs d m.name = some v) cycles vs)
    (st st2 : State) (x : Option CounterSeries)
    (hg : st.reg.gaugeAt m.name (Base d) = none)
    (hc : st.reg.counterAt m.name (Base d) = some x)
    (h : scheduler nicPaths cycles st = .ok st2) :
    st2.reg.gaugeAt m.name (Base d) = none ∧
    st2.reg.counterAt m.name (Base d) =
      some (vs.foldl (fun acc v => some ((Option.getD acc CounterSeries.zero).add v)) x) := by
  induction hread generalizing st x with
  | nil =>
    simp only [scheduler, Except.ok.injEq] at h
    subst h
    exact ⟨hg, hc⟩
  | cons h1 _ ih =>
    obtain ⟨st1, hu, hs⟩ := scheduler_cons_inv h
    have hstep := updateMetrics_counter hu hlab hd hm hk h1 hg hc
    exact ih st1 _ hstep.1 hstep.2 hs

theorem main_serving_of_scheduler {globPaths : List String} {cycles : List FS} {reg0 : Registry}
    {st : State} (hreg : registerMetrics = .ok reg0) (hne : globPaths ≠ [])
    (h : scheduler globPaths cycles ⟨reg0, [.discovered globPaths]⟩ = .ok st) :
    main globPaths false cycles = .serving st := by
  unfold main discoverNICs
  rw [hreg]
  have : globPaths.length ≠ 0 := by
    intro h0; exact hne (List.length_eq_zero.mp h0)
  simp only [Bool.false_eq_true, if_false, this, State.print, List.nil_append]
  rw [h]

/-- Claim C1 (amended): For every schema metric of kind counter, every discovered device
`d` and every sequence of one or more update cycles, starting from the freshly registered
registry, in which the metric's counter file for `d` was read and parsed successfully
with values `v1..vN`, and in which nothing fails in between (no counter file of a
discovered device holds a negative number, on which `Add` panics): the program is still
serving after the `N`-th cycle and the registry value of the series
`(metric, nic = base name of d)` is what `N` calls of `Add` leave in a new counter, namely
the `float64` sum of the integral values added up modulo `2 ^ 64` and of the other values
added up in `float64`.  When `v1..vN` are non-negative integers with
`v1 + ... + vN ≤ 2 ^ 53`, that is exactly `v1 + ... + vN`. -/
theorem C1_counter_running_sum (found : Discovered) (d : String) (m : MetricDef)
    (fs1 : FS) (later : List FS) (v1 : F64) (vs : List F64)
    (hd : d ∈ found.paths) (hm : m ∈ metricDefinitions) (hk : m.kind = "counter")
    (hread : List.Forall₂ (fun fs v => successfulRead fs d m.name = some v)
      (fs1 :: later) (v1 :: vs))
    (hnn : ∀ fs ∈ fs1 :: later, ∀ p ∈ found.paths, noNegativeCounter fs p = true) :
    ∃ st, main found.paths false (fs1 :: later) = .serving st ∧
      st.reg.value m.name (Base d) =
        some ((v1 :: vs).foldl CounterSeries.add CounterSeries.zero).get ∧
      (∀ ns : List Nat, v1 :: vs = ns.map (fun (n : Nat) => F64.fin (n : ℚ)) →
        ns.sum ≤ 2 ^ 53 →
        st.reg.value m.name (Base d) = some (F64.fin ((ns.sum : Nat) : ℚ))) := by
  obtain ⟨reg0, hreg⟩ := registerMetrics_ok
  obtain ⟨st, hs⟩ :=
    scheduler_ok found.paths (fs1 :: later) hnn ⟨reg0, [.discovered found.paths]⟩
  have hfresh := (fresh_registry hreg m hm (Base d)).2 hk
  have hrun := scheduler_counter found.paths found.distinct d hd m hm hk (fs1 :: later) _ hread
    ⟨reg0, [.discovered found.paths]⟩ st none hfresh.1 hfresh.2 hs
  have hfold : (v1 :: vs).foldl
      (fun acc v => some ((Option.getD acc CounterSeries.zero).add v)) none =
      some ((v1 :: vs).foldl CounterSeries.add CounterSeries.zero) := by
    simp only [List.foldl_cons, Option.getD_none]
    rw [foldl_accumulate_some]
  have hvalue : st.reg.value m.name (Base d) =
      some ((v1 :: vs).foldl CounterSeries.add CounterSeries.zero).get := by
    rw [Registry.value_eq_view, hrun.1, hrun.2, hfold]
    simp only [Option.join, Option.bind, id, Option.map_some']
  refine ⟨st, main_serving_of_scheduler hreg (List.ne_nil_of_mem hd) hs, hvalue, ?_⟩
  intro ns hns hsum
  have hsum0 : CounterSeries.zero.valInt + ns.sum ≤ 2 ^ 53 := by
    show 0 + ns.sum ≤ 2 ^ 53
    omega
  rw [hvalue, hns, foldl_counter_nat ns CounterSeries.zero hsum0]
  have hz : ({ CounterSeries.zero with valInt := CounterSeries.zero.valInt + ns.sum } :
      CounterSeries) = ⟨F64.fin 0, ns.sum⟩ := by
    show (⟨F64.fin 0, 0 + ns.sum⟩ : CounterSeries) = ⟨F64.fin 0, ns.sum⟩
    rw [Nat.zero_add]
  rw [hz, counterSeries_get_nat _ hsum]

/-- Witness of C1: `rx_rdma_ucast_pkts` read as 10 and then 15 gives 25. -/
theorem C1_counter_running_sum_witness :
    ∃ st, main [ionic0] false [exampleFS "42\n" "10\n", exampleFS "42\n" "15\n"] = .serving st ∧
      st.reg.value "rx_rdma_ucast_pkts" "ionic_0" = some (F64.fin 25) := by
  obtain ⟨st, hmain, _, hexact⟩ := C1_counter_running_sum ⟨[ionic0], by decide!⟩ ionic0 rxUcastPkts
    (exampleFS "42\n" "10\n") [exampleFS "42\n" "15\n"] (F64.fin 10) [F64.fin 15]
    (by decide) (by decide) rfl
    (List.Forall₂.cons (by decide!) (List.Forall₂.cons (by decide!) List.Forall₂.nil))
    (by
      intro fs hfs p hp
      simp only [List.mem_cons, List.mem_singleton, List.not_mem_nil, or_false] at hfs hp
      subst hp
      rcases hfs with rfl | rfl <;> decide!)
  refine ⟨st, hmain, ?_⟩
  have h := hexact [10, 15] (by simp) (by decide)
  have hsum : (((([10, 15] : List Nat).sum : Nat) : ℚ)) = 25 := by norm_num
  rw [hsum] at h
  exact h

/-- Counterexample to C1 as stated: three runs of two cycles in which the counter file
is read and parsed successfully both times.  Two readings of `2 ^ 63` show 0 (the integer
part of the counter is a `uint64`), the readings `2 ^ 53` and 1 show `2 ^ 53`, and the
readings 0.1 and 0.2 show a value that is not the sum of the two values read.  Before the
first cycle the series does not exist, so a run without a cycle shows no value, not the
empty sum 0. -/
theorem C1_counterexample_sum_not_exact :
    (successfulRead (exampleFS "42\n" "9223372036854775808\n") ionic0 "rx_rdma_ucast_pkts" =
        some (F64.fin (2 ^ 63)) ∧
      (match main [ionic0] false [exampleFS "42\n" "9223372036854775808\n",
          exampleFS "42\n" "9223372036854775808\n"] with
        | .serving st => st.reg.value "rx_rdma_ucast_pkts" "ionic_0"
        | _ => none) = some (F64.fin 0)) ∧
    (successfulRead (exampleFS "42\n" "9007199254740992\n") ionic0 "rx_rdma_ucast_pkts" =
        some (F64.fin (2 ^ 53)) ∧
      successfulRead (exampleFS "42\n" "1\n") ionic0 "rx_rdma_ucast_pkts" = some (F64.fin 1) ∧
      (match main [ionic0] false [exampleFS "42\n" "9007199254740992\n",
          exampleFS "42\n" "1\n"] with
        | .serving st => st.reg.value "rx_rdma_ucast_pkts" "ionic_0"
        | _ => none) = some (F64.fin (2 ^ 53))) ∧
    (successfulRead (exampleFS "42\n" "0.1\n") ionic0 "rx_rdma_ucast_pkts" =
        some (F64.fin (3602879701896397 / 36028797018963968)) ∧
      successfulRead (exampleFS "42\n" "0.2\n") ionic0 "rx_rdma_ucast_pkts" =
        some (F64.fin (3602879701896397 / 18014398509481984)) ∧
      (match main [ionic0] false [exampleFS "42\n" "0.1\n", exampleFS "42\n" "0.2\n"] with
        | .serving st => st.reg.value "rx_rdma_ucast_pkts" "ionic_0"
        | _ => none) = some (F64.fin (1351079888211149 / 4503599627370496)) ∧
      (3602879701896397 / 36028797018963968 + 3602879701896397 / 18014398509481984 : ℚ) ≠
        1351079888211149 / 4503599627370496) ∧
    (match main [ionic0] false [] with
      | .serving st => st.reg.value "rx_rdma_ucast_pkts" "ionic_0"
      | _ => some (F64.fin 0)) = none := by
  refine ⟨⟨by decide!, by decide!⟩, ⟨by decide!, by decide!, by decide!⟩,
    ⟨by decide!, by decide!, by decide!, by norm_num⟩, by decide!⟩

/-! ## Gauges -/

/-- The kind-`gauge` branch of `applyValue` cannot fail and leaves the value in the series. -/
theorem applyValue_gauge (m : MetricDef) (nic : String) (v : F64) (reg : Registry)
    (hk : m.kind = "gauge") (hreg : (reg.metrics m.name).isSome = true) :
    ∃ reg1, applyValue m nic v reg = .ok reg1 ∧ reg1.value m.name nic = some v := by
  obtain ⟨g, hg⟩ := Option.isSome_iff_exists.mp hreg
  refine ⟨{ reg with metrics := fun n => if n = m.name then some (g.set nic v) else reg.metrics n },
    ?_, ?_⟩
  · unfold applyValue
    simp only [hk, if_true, hg]
  · simp [Registry.value, Vec.set]

/-- Claim C2: For every schema metric `m` of kind gauge, every device `d` and every prior
state in which the gauge is registered: when `parseAndUpdateMetrics` successfully reads
and parses the value `v` from the metric's counter file for `d`, the registry value of
the series `(m, base name of d)` is exactly `v` once the call has returned, whatever it
was before; any later call that does not successfully read that file (another device
label, or no successful read) leaves the value as it is; and the step that applies the
value cannot fail: right after it the series holds `v` and the loop goes on. -/
theorem C2_gauge_holds_last_read (fs : FS) (st st1 : State) (err : Option GoError)
    (d : String) (m : MetricDef) (v : F64)
    (hm : m ∈ metricDefinitions) (hk : m.kind = "gauge")
    (hreg : (st.reg.metrics m.name).isSome = true)
    (hread : successfulRead fs d m.name = some v)
    (hrun : parseAndUpdateMetrics fs st d = .ok (st1, err)) :
    st1.reg.value m.name (Base d) = some v ∧
    (∀ (fs2 : FS) (p : String) (st2 st3 : State) (err2 : Option GoError),
      parseAndUpdateMetrics fs2 st2 p = .ok (st3, err2) →
      (Base p ≠ Base d ∨ successfulRead fs2 p m.name = none) →
      st3.reg.value m.name (Base d) = st2.reg.value m.name (Base d)) ∧
    (∀ (hw nic content : String) (rest : List MetricDef),
      fs.readFile (Join hw m.name) = .data content → parseValue content = .ok v →
      ∃ reg1, applyValue m nic v st.reg = .ok reg1 ∧ reg1.value m.name nic = some v ∧
        metricLoop fs hw nic (m :: rest) st = metricLoop fs hw nic rest { st with reg := reg1 }) := by
  refine ⟨?_, ?_, ?_⟩
  · have heff := parseAndUpdateMetrics_effect fs d schema_names_nodup m hm st st1 err hrun
    rw [hread] at heff
    simp only at heff
    obtain ⟨g, hg⟩ := Option.isSome_iff_exists.mp hreg
    rw [Registry.value_eq_view, heff.1]
    simp [gaugeSet, hk, Registry.gaugeAt, hg]
  · intro fs2 p st2 st3 err2 hrun2 hcase
    by_cases hb : Base p = Base d
    · rcases hcase with h1 | h1
      · exact absurd hb h1
      · have heff := parseAndUpdateMetrics_effect fs2 p schema_names_nodup m hm st2 st3 err2 hrun2
        rw [h1] at heff
        simp only at heff
        rw [Registry.value_eq_view, Registry.value_eq_view, ← hb, heff.1, heff.2]
    · have hfr : st2.reg.AgreeAt (Base d) st3.reg :=
        parseAndUpdateMetricsOver_rel (Registry.AgreeAt (Base d)) (agreeAt_refl _)
          (fun _ _ _ h1 h2 => agreeAt_trans h1 h2) metricDefinitions fs2 p
          (fun _ _ _ _ _ happ => applyValue_frame_label happ (fun hh => hb hh.symm)) st2 st3 err2 hrun2
      exact (agreeAt_value_eq hfr m.name).symm
  · intro hw nic content rest hfile hparse
    obtain ⟨reg1, happ, hval⟩ := applyValue_gauge m nic v st.reg hk hreg
    refine ⟨reg1, happ, hval, ?_⟩
    rw [metricLoop_cons]
    simp only [hfile, hparse, happ]

/-- Witness of C2: `lifespan` read as 42 on two successive cycles gives 42 (the call of
the second cycle, from the state the first cycle left). -/
theorem C2_gauge_holds_last_read_witness :
    (match parseAndUpdateMetrics (exampleFS "42\n" "15\n") afterFirstCycle ionic0 with
      | .ok (st1, _) => st1.reg.value "lifespan" "ionic_0"
      | .error _ => none) = some (F64.fin 42) := by
  cases hrun : parseAndUpdateMetrics (exampleFS "42\n" "15\n") afterFirstCycle ionic0 with
  | ok r =>
    obtain ⟨st1, err⟩ := r
    exact (C2_gauge_holds_last_read (exampleFS "42\n" "15\n") afterFirstCycle st1 err ionic0
      lifespan (F64.fin 42) (by decide) rfl (by decide!) (by decide!) hrun).1
  | error p =>
    have h : (parseAndUpdateMetrics (exampleFS "42\n" "15\n") afterFirstCycle ionic0).isOk = true := by
      decide!
    rw [hrun] at h
    cases h

/-! ## Discovery and start-up -/

/-- Claim C5: `discoverNICs` returns an error (and no device list) exactly when the scan
failed or succeeded with zero matches, and otherwise returns exactly the non-empty list of
matches, in scan order, with no error; `main` exits with status 1 in the first case and
starts the scheduler (and the server) on the discovered list only in the second. -/
theorem C5_discovery (globPaths : List String) (globErr : Bool) (st : State) :
    ((∃ e, (discoverNICs globPaths globErr st).1 = .error e) ↔
      (globErr = true ∨ globPaths = [])) ∧
    (∀ l, (discoverNICs globPaths globErr st).1 = .ok l ↔
      (globErr = false ∧ globPaths ≠ [] ∧ l = globPaths)) ∧
    (∀ cycles, (globErr = true ∨ globPaths = []) →
      ∃ st1, main globPaths globErr cycles = .exited 1 st1) ∧
    (∀ cycles, (globErr = false ∧ globPaths ≠ []) →
      ∃ reg0, registerMetrics = .ok reg0 ∧
        main globPaths globErr cycles =
          match scheduler globPaths cycles ⟨reg0, [.discovered globPaths]⟩ with
          | .error p => .panicked p
          | .ok st1 => .serving st1) := by
  obtain ⟨reg0, hreg⟩ := registerMetrics_ok
  have hlen : globPaths.length = 0 ↔ globPaths = [] := List.length_eq_zero
  refine ⟨?_, ?_, ?_, ?_⟩
  · unfold discoverNICs
    cases globErr <;> by_cases hl : globPaths = [] <;> simp [hl]
  · intro l
    unfold discoverNICs
    cases globErr <;> by_cases hl : globPaths = [] <;> simp [hl, eq_comm]
  · intro cycles hcase
    unfold main discoverNICs
    rw [hreg]
    rcases hcase with h1 | h1
    · simp [h1]
    · cases globErr <;> simp [h1]
  · intro cycles hcase
    refine ⟨reg0, hreg, ?_⟩
    unfold main discoverNICs
    rw [hreg]
    simp only [hcase.1, hlen, if_neg hcase.2, if_false, Bool.false_eq_true, State.print,
      List.nil_append]

/-- Witness of C5: an empty scan makes `main` exit with status 1. -/
theorem C5_discovery_witness : ∃ st1, main [] false [exampleFS "42\n" "10\n"] = .exited 1 st1 :=
  (C5_discovery [] false freshState).2.2.1 [exampleFS "42\n" "10\n"] (Or.inr rfl)

/-! ## Negative counter readings -/

/-- Claim C6 (failing input): Two devices; the counter file `rx_rdma_ucast_pkts` of the
first holds `-1`.  The file is read and parsed, `Add(-1)` panics, and `updateMetrics`
neither returns nor visits the second device. -/
theorem C6_negative_counter_panics :
    parseValue "-1\n" = .ok (F64.fin (-1)) ∧
    updateMetrics (exampleFS "42\n" "-1\n") [ionic0, ionic1] freshState =
      .error .counterDecrease := by
  refine ⟨by decide!, ?_⟩
  have h : (match updateMetrics (exampleFS "42\n" "-1\n") [ionic0, ionic1] freshState with
      | .error p => decide (p = .counterDecrease)
      | .ok _ => false) = true := by decide!
  cases hu : updateMetrics (exampleFS "42\n" "-1\n") [ionic0, ionic1] freshState with
  | error p => rw [hu] at h; rw [of_decide_eq_true h]
  | ok st => rw [hu] at h; cases h

/-! ## A missing counter file -/

/-- What the loop does to the registry and what it returns do not depend on the output
printed so far. -/
theorem metricLoop_regView_congr (fs : FS) (hw nic : String) (defs : List MetricDef)
    (st st' : State) (h : st.reg = st'.reg) :
    regView (metricLoop fs hw nic defs st) = regView (metricLoop fs hw nic defs st') := by
  induction defs generalizing st st' with
  | nil => simp [metricLoop, regView, h]
  | cons x rest ih =>
    unfold metricLoop
    simp only
    cases fs.readFile (Join hw x.name) with
    | notExist => exact ih _ _ h
    | otherErr => simp [regView, h]
    | data content =>
      simp only
      cases parseValue content with
      | error e => simp [regView, h]
      | ok v =>
        simp only
        rw [← h]
        cases applyValue x nic v st.reg with
        | error p => rfl
        | ok reg1 => exact ih _ _ rfl

/-- An entry whose counter file is absent can be left out of the loop. -/
theorem metricLoop_without (fs : FS) (hw nic name : String)
    (habs : fs.readFile (Join hw name) = .notExist) (defs : List MetricDef) (st : State) :
    regView (metricLoop fs hw nic defs st) =
      regView (metricLoop fs hw nic (defs.filter (fun e => decide (e.name ≠ name))) st) := by
  induction defs generalizing st with
  | nil => rfl
  | cons x rest ih =>
    by_cases hx : x.name = name
    · have hf : (x :: rest).filter (fun e => decide (e.name ≠ name)) =
          rest.filter (fun e => decide (e.name ≠ name)) := by
        simp [List.filter_cons, hx]
      rw [hf]
      have hstep : metricLoop fs hw nic (x :: rest) st =
          metricLoop fs hw nic rest (st.print (.metricMissing x.name nic)) := by
        rw [metricLoop]
        simp only [hx, habs]
      rw [hstep, ih]
      exact metricLoop_regView_congr fs hw nic _ _ _ rfl
    · have hf : (x :: rest).filter (fun e => decide (e.name ≠ name)) =
          x :: rest.filter (fun e => decide (e.name ≠ name)) := by
        simp [List.filter_cons, hx]
      rw [hf]
      unfold metricLoop
      simp only
      cases fs.readFile (Join hw x.name) with
      | notExist => exact ih _
      | otherErr => rfl
      | data content =>
        simp only
        cases parseValue content with
        | error e => rfl
        | ok v =>
          simp only
          cases applyValue x nic v st.reg with
          | error p => rfl
          | ok reg1 => exact ih _

/-- Claim C4: For every device `d` whose counters directory exists and every schema entry
`m` whose counter file is absent for `d`: `parseAndUpdateMetrics` ends exactly as the same
loop over the schema without `m` does (same panic, or same returned error and same
registry, so the same values for every other metric of `d` and for every metric of every
other device, and no error because of `m`); and when it returns, the series of `m` are
as before, for every label (not created, not zeroed). -/
theorem C4_missing_file_is_skipped (fs : FS) (st : State) (d : String) (m : MetricDef)
    (hdir : fs.stat (hwCounters d) ≠ .notExist)
    (habs : fs.readFile (Join (hwCounters d) m.name) = .notExist) :
    regView (parseAndUpdateMetrics fs st d) =
      regView (parseAndUpdateMetricsOver
        (metricDefinitions.filter (fun e => decide (e.name ≠ m.name))) fs st d) ∧
    ∀ (st1 : State) (err : Option GoError), parseAndUpdateMetrics fs st d = .ok (st1, err) →
      ∀ nic, st1.reg.gaugeAt m.name nic = st.reg.gaugeAt m.name nic ∧
        st1.reg.counterAt m.name nic = st.reg.counterAt m.name nic ∧
        st1.reg.value m.name nic = st.reg.value m.name nic := by
  have heq : regView (parseAndUpdateMetrics fs st d) =
      regView (parseAndUpdateMetricsOver
        (metricDefinitions.filter (fun e => decide (e.name ≠ m.name))) fs st d) := by
    unfold parseAndUpdateMetrics
    rw [parseAndUpdateMetricsOver_loop hdir, parseAndUpdateMetricsOver_loop hdir]
    exact metricLoop_without fs _ _ m.name habs metricDefinitions st
  refine ⟨heq, ?_⟩
  intro st1 err hrun nic
  rw [hrun, parseAndUpdateMetricsOver_loop hdir] at heq
  cases hl : metricLoop fs (hwCounters d) (Base d)
      (metricDefinitions.filter (fun e => decide (e.name ≠ m.name))) st with
  | error p => rw [hl] at heq; simp [regView] at heq
  | ok r =>
    obtain ⟨st2, err2⟩ := r
    rw [hl] at heq
    simp only [regView, Except.ok.injEq, Prod.mk.injEq] at heq
    have hfr := metricLoop_frame_name hl (n := m.name)
      (fun e he => by
        have := (List.mem_filter.mp he).2
        simpa using this) nic
    rw [heq.1]
    refine ⟨hfr.1, hfr.2, ?_⟩
    rw [Registry.value_eq_view, Registry.value_eq_view, hfr.1, hfr.2]

/-- Witness of C4: on `ionic_0` with only `lifespan` and `rx_rdma_ucast_pkts` present,
the absent file `req_rx_cqe_err` changes nothing: the call ends as the loop over the
schema without that entry. -/
theorem C4_missing_file_is_skipped_witness :
    regView (parseAndUpdateMetrics (exampleFS "42\n" "10\n") freshState ionic0) =
      regView (parseAndUpdateMetricsOver
        (metricDefinitions.filter (fun e => decide (e.name ≠ "req_rx_cqe_err")))
        (exampleFS "42\n" "10\n") freshState ionic0) :=
  (C4_missing_file_is_skipped (exampleFS "42\n" "10\n") freshState ionic0
    ⟨"req_rx_cqe_err", "Request RX CQE Errors", "counter"⟩ (by decide) (by decide!)).1

/-! ## A parse failure -/

/-- The loop over a concatenation: the second part runs when the first one neither
panicked nor returned an error. -/
theorem metricLoop_append (fs : FS) (hw nic : String) (xs ys : List MetricDef) (st : State) :
    metricLoop fs hw nic (xs ++ ys) st =
      match metricLoop fs hw nic xs st with
      | .error p => .error p
      | .ok (st1, some err) => .ok (st1, some err)
      | .ok (st1, none) => metricLoop fs hw nic ys st1 := by
  induction xs generalizing st with
  | nil => rfl
  | cons x rest ih =>
    rw [List.cons_append, metricLoop_cons, metricLoop_cons]
    cases fs.readFile (Join hw x.name) with
    | notExist => exact ih _
    | otherErr => rfl
    | data content =>
      simp only
      cases parseValue content with
      | error e => rfl
      | ok v =>
        simp only
        cases applyValue x nic v st.reg with
        | error p => rfl
        | ok reg1 => exact ih _

/-- Entries that are absent or parse never make the loop return an error. -/
theorem metricLoop_passes (fs : FS) (hw nic : String) (xs : List MetricDef)
    (hpass : ∀ e ∈ xs, passes fs hw e = true) (st st1 : State) (err : Option GoError)
    (h : metricLoop fs hw nic xs st = .ok (st1, err)) : err = none := by
  induction xs generalizing st with
  | nil =>
    simp only [metricLoop, Except.ok.injEq, Prod.mk.injEq] at h
    exact h.2.symm
  | cons x rest ih =>
    have hx := hpass x (List.mem_cons_self _ _)
    have ih1 := ih (fun e he => hpass e (List.mem_cons_of_mem _ he))
    unfold passes at hx
    unfold metricLoop at h
    simp only at h
    split at h
    · exact ih1 _ h
    · rename_i hread
      rw [hread] at hx
      cases hx
    · rename_i content hread
      rw [hread] at hx
      simp only at hx
      split at h
      · rename_i e hparse
        rw [hparse] at hx
        cases hx
      · split at h
        · cases h
        · exact ih1 _ h

/-- The call for a device whose entry `k` does not parse, the entries before `k` being
absent or well-formed: it applies the entries before `k`, nothing from `k` on, and
returns the parse error. -/
theorem parseAndUpdateMetrics_parse_failure (fs : FS) (d : String)
    (before after : List MetricDef) (k : MetricDef) (content : String) (cause : NumError)
    (hschema : metricDefinitions = before ++ k :: after)
    (hdir : fs.stat (hwCounters d) ≠ .notExist)
    (hbefore : ∀ e ∈ before, passes fs (hwCounters d) e = true)
    (hfile : fs.readFile (Join (hwCounters d) k.name) = .data content)
    (hparse : parseValue content = .error cause) (st : State) :
    parseAndUpdateMetrics fs st d =
      match parseAndUpdateMetricsOver before fs st d with
      | .error p => .error p
      | .ok (st1, _) => .ok (st1, some (.parseError (Join (hwCounters d) k.name) cause)) := by
  unfold parseAndUpdateMetrics
  rw [parseAndUpdateMetricsOver_loop hdir, parseAndUpdateMetricsOver_loop hdir, hschema,
    metricLoop_append]
  cases hl : metricLoop fs (hwCounters d) (Base d) before st with
  | error p => rfl
  | ok r =>
    obtain ⟨st1, err⟩ := r
    have := metricLoop_passes fs _ _ before hbefore st st1 err hl
    subst this
    simp only
    rw [metricLoop_cons]
    simp only [hfile, hparse]

theorem updateMetrics_append (fs : FS) (pre post : List String) (st : State) :
    updateMetrics fs (pre ++ post) st =
      match updateMetrics fs pre st with
      | .error p => .error p
      | .ok st1 => updateMetrics fs post st1 := by
  induction pre generalizing st with
  | nil => rfl
  | cons p rest ih =>
    rw [List.cons_append, updateMetrics_cons, updateMetrics_cons]
    cases parseAndUpdateMetrics fs st p with
    | error e => rfl
    | ok r =>
      obtain ⟨st1, err⟩ := r
      cases err <;> exact ih _

/-- The series of the label `nic` after `applyValue` depend only on the series of that
label before. -/
theorem applyValue_agree {d : MetricDef} {nic : String} {v : F64} {r r' r1 r1' : Registry}
    (hag : r.AgreeAt nic r') (h : applyValue d nic v r = .ok r1)
    (h' : applyValue d nic v r' = .ok r1') : r1.AgreeAt nic r1' := by
  intro n
  have hv := applyValue_view h n nic
  have hv' := applyValue_view h' n nic
  rw [hv.1, hv.2.1, hv'.1, hv'.2.1, (hag n).1, (hag n).2]
  exact ⟨rfl, rfl⟩

/-- Two runs of the loop for the same device, on filesystem views that agree on the
counter files of the device, from registries that agree on its label: the registries
after the loop agree on the label. -/
theorem metricLoop_agree (fs fs' : FS) (hw nic : String) (defs : List MetricDef)
    (hfs : ∀ e ∈ defs, fs'.readFile (Join hw e.name) = fs.readFile (Join hw e.name))
    (st st' st1 st1' : State) (err err' : Option GoError)
    (hag : st.reg.AgreeAt nic st'.reg)
    (h : metricLoop fs hw nic defs st = .ok (st1, err))
    (h' : metricLoop fs' hw nic defs st' = .ok (st1', err')) :
    st1.reg.AgreeAt nic st1'.reg := by
  induction defs generalizing st st' with
  | nil =>
    simp only [metricLoop, Except.ok.injEq, Prod.mk.injEq] at h h'
    rw [← h.1, ← h'.1]
    exact hag
  | cons x rest ih =>
    have ih1 := ih (fun e he => hfs e (List.mem_cons_of_mem _ he))
    have hx := hfs x (List.mem_cons_self _ _)
    unfold metricLoop at h h'
    simp only at h h'
    rw [hx] at h'
    cases hread : fs.readFile (Join hw x.name) with
    | notExist =>
      rw [hread] at h h'
      exact ih1 (st.print _) (st'.print _) hag h h'
    | otherErr =>
      rw [hread] at h h'
      simp only [Except.ok.injEq, Prod.mk.injEq] at h h'
      rw [← h.1, ← h'.1]
      exact hag
    | data content =>
      rw [hread] at h h'
      simp only at h h'
      cases hparse : parseValue content with
      | error e =>
        rw [hparse] at h h'
        simp only [Except.ok.injEq, Prod.mk.injEq] at h h'
        rw [← h.1, ← h'.1]
        exact hag
      | ok v =>
        rw [hparse] at h h'
        simp only at h h'
        cases happ : applyValue x nic v st.reg with
        | error p => rw [happ] at h; cases h
        | ok reg1 =>
          cases happ' : applyValue x nic v st'.reg with
          | error p => rw [happ'] at h'; cases h'
          | ok reg1' =>
            rw [happ] at h
            rw [happ'] at h'
            exact ih1 { st with reg := reg1 } { st' with reg := reg1' }
              (applyValue_agree hag happ happ') h h'

/-- Non-interference between devices: two cycles over the same list, on filesystem views
that agree on every device labelled `nic`, from registries that agree on `nic`, end in
registries that agree on `nic`. -/
theorem updateMetrics_agree (fs fs' : FS) (nic : String) (nicPaths : List String)
    (hfs : ∀ p ∈ nicPaths, Base p = nic →
      fs'.stat (hwCounters p) = fs.stat (hwCounters p) ∧
      ∀ name, fs'.readFile (Join (hwCounters p) name) = fs.readFile (Join (hwCounters p) name))
    (st st' st2 st2' : State) (hag : st.reg.AgreeAt nic st'.reg)
    (h : updateMetrics fs nicPaths st = .ok st2)
    (h' : updateMetrics fs' nicPaths st' = .ok st2') :
    st2.reg.AgreeAt nic st2'.reg := by
  induction nicPaths generalizing st st' with
  | nil =>
    simp only [updateMetrics, Except.ok.injEq] at h h'
    rw [← h, ← h']
    exact hag
  | cons p rest ih =>
    obtain ⟨st1, err, hp, hrest⟩ := updateMetrics_cons_inv h
    obtain ⟨st1', err', hp', hrest'⟩ := updateMetrics_cons_inv h'
    refine ih (fun q hq => hfs q (List.mem_cons_of_mem _ hq)) _ _ ?_ hrest hrest'
    rw [afterDevice_reg, afterDevice_reg]
    by_cases hb : Base p = nic
    · obtain ⟨hstat, hfiles⟩ := hfs p (List.mem_cons_self _ _) hb
      unfold parseAndUpdateMetrics at hp hp'
      by_cases hs : fs.stat (hwCounters p) = .notExist
      · rw [parseAndUpdateMetricsOver_skip hs] at hp
        rw [parseAndUpdateMetricsOver_skip (hstat.trans hs)] at hp'
        simp only [Except.ok.injEq, Prod.mk.injEq] at hp hp'
        rw [← hp.1, ← hp'.1]
        exact hag
      · rw [parseAndUpdateMetricsOver_loop hs] at hp
        rw [parseAndUpdateMetricsOver_loop (by rw [hstat]; exact hs)] at hp'
        rw [hb] at hp hp'
        exact metricLoop_agree fs fs' _ nic metricDefinitions (fun e _ => hfiles e.name)
          st st' st1 st1' err err' hag hp hp'
    · have hne : nic ≠ Base p := fun hh => hb hh.symm
      have hfr : st.reg.AgreeAt nic st1.reg :=
        parseAndUpdateMetricsOver_rel (Registry.AgreeAt nic) (agreeAt_refl _)
          (fun _ _ _ h1 h2 => agreeAt_trans h1 h2) metricDefinitions fs p
          (fun _ _ _ _ _ happ => applyValue_frame_label happ hne) st st1 err hp
      have hfr' : st'.reg.AgreeAt nic st1'.reg :=
        parseAndUpdateMetricsOver_rel (Registry.AgreeAt nic) (agreeAt_refl _)
          (fun _ _ _ h1 h2 => agreeAt_trans h1 h2) metricDefinitions fs' p
          (fun _ _ _ _ _ happ => applyValue_frame_label happ hne) st' st1' err' hp'
      exact agreeAt_trans (agreeAt_trans (agreeAt_symm hfr) hag) hfr'

/-- From the entry that does not parse on, nothing counts as successfully read. -/
theorem readOf_from_failure (fs : FS) (hw : String) (before after : List MetricDef)
    (k : MetricDef) (hnd : ((before ++ k :: after).map (fun e => e.name)).Nodup)
    (content : String) (cause : NumError)
    (hfile : fs.readFile (Join hw k.name) = .data content)
    (hparse : parseValue content = .error cause) (e : MetricDef) (he : e ∈ k :: after) :
    readOf fs hw (before ++ k :: after) e.name = none := by
  induction before with
  | nil =>
    rw [List.nil_append, readOf, hfile]
    simp only [hparse]
  | cons x rest ih =>
    rw [List.cons_append, List.map_cons, List.nodup_cons] at hnd
    have hxe : x.name ≠ e.name := by
      intro hh
      apply hnd.1
      rw [hh]
      exact List.mem_map.mpr ⟨e, List.mem_append.mpr (Or.inr he), rfl⟩
    have hi := ih hnd.2
    rw [List.cons_append, readOf]
    cases hread : fs.readFile (Join hw x.name) with
    | notExist => rw [if_neg hxe]; exact hi
    | otherErr => rfl
    | data c =>
      cases hp : parseValue c with
      | error err => simp only [hp]
      | ok w => simp only [hp, hxe, if_false]; exact hi

/-- Claim C3: For every device list `pre ++ d :: post` and every filesystem state in which
the counter file of the schema entry `k` on device `d` does not parse: when one
`updateMetrics` cycle has returned (base names pairwise distinct), every entry of `d`
before `k` that was successfully read is applied (gauge overwritten, counter increased),
and the series of `d` for `k` and for every later entry are as before the cycle.  The
series of every other device come out exactly as in a cycle on any filesystem state that
differs only in the files of `d` (for instance one in which the file parses).  In terms
of the run: when the entries before `k` are absent or well-formed, so that `k` is
reached, the cycle processes the devices before `d`, runs for `d` the loop over exactly
the entries before `k`, prints the parse error, and goes on to process every device
after `d`. -/
theorem C3_parse_failure_is_isolated (fs : FS) (pre post : List String) (d : String)
    (before after : List MetricDef) (k : MetricDef) (content : String) (cause : NumError)
    (hschema : metricDefinitions = before ++ k :: after)
    (hfile : fs.readFile (Join (hwCounters d) k.name) = .data content)
    (hparse : parseValue content = .error cause) (st : State) :
    (∀ st2 : State, ((pre ++ d :: post).map Base).Nodup →
      updateMetrics fs (pre ++ d :: post) st = .ok st2 →
      (∀ e ∈ before, ∀ v : F64, successfulRead fs d e.name = some v →
        st2.reg.gaugeAt e.name (Base d) = gaugeSet e.kind v (st.reg.gaugeAt e.name (Base d)) ∧
        st2.reg.counterAt e.name (Base d) =
          counterAdd e.kind v (st.reg.counterAt e.name (Base d))) ∧
      (∀ e ∈ k :: after,
        st2.reg.gaugeAt e.name (Base d) = st.reg.gaugeAt e.name (Base d) ∧
        st2.reg.counterAt e.name (Base d) = st.reg.counterAt e.name (Base d) ∧
        st2.reg.value e.name (Base d) = st.reg.value e.name (Base d))) ∧
    (∀ (fs' : FS) (st2 st2' : State),
      (∀ p ∈ pre ++ post, Base p ≠ Base d ∧
        fs'.stat (hwCounters p) = fs.stat (hwCounters p) ∧
        ∀ name, fs'.readFile (Join (hwCounters p) name) = fs.readFile (Join (hwCounters p) name)) →
      updateMetrics fs (pre ++ d :: post) st = .ok st2 →
      updateMetrics fs' (pre ++ d :: post) st = .ok st2' →
      ∀ p ∈ pre ++ post, ∀ name,
        st2.reg.value name (Base p) = st2'.reg.value name (Base p)) ∧
    (fs.stat (hwCounters d) ≠ .notExist →
      (∀ e ∈ before, passes fs (hwCounters d) e = true) →
      updateMetrics fs (pre ++ d :: post) st =
        match updateMetrics fs pre st with
        | .error p => .error p
        | .ok st0 =>
          match parseAndUpdateMetricsOver before fs st0 d with
          | .error p => .error p
          | .ok (st1, _) =>
            updateMetrics fs post
              (st1.print (.updateError d (.parseError (Join (hwCounters d) k.name) cause)))) := by
  refine ⟨?_, ?_, ?_⟩
  · intro st2 hlab hrun
    have hnd : ((before ++ k :: after).map (fun e => e.name)).Nodup := by
      rw [← hschema]; exact schema_names_nodup
    have hd : d ∈ pre ++ d :: post := List.mem_append.mpr (Or.inr (List.mem_cons_self _ _))
    constructor
    · intro e he v hread
      have hmem : e ∈ metricDefinitions := by
        rw [hschema]; exact List.mem_append.mpr (Or.inl he)
      have heff := updateMetrics_effect fs _ hlab d hd schema_names_nodup e hmem st st2 hrun
      rw [hread] at heff
      exact heff
    · intro e he
      have hmem : e ∈ metricDefinitions := by
        rw [hschema]; exact List.mem_append.mpr (Or.inr he)
      have heff := updateMetrics_effect fs _ hlab d hd schema_names_nodup e hmem st st2 hrun
      have hread : successfulRead fs d e.name = none := by
        unfold successfulRead
        by_cases hdir : fs.stat (hwCounters d) = .notExist
        · rw [if_pos hdir]
        · rw [if_neg hdir, hschema]
          exact readOf_from_failure fs _ before after k hnd content cause hfile hparse e he
      rw [hread] at heff
      simp only at heff
      refine ⟨heff.1, heff.2, ?_⟩
      rw [Registry.value_eq_view, Registry.value_eq_view, heff.1, heff.2]
  · intro fs' st2 st2' hother h h' p hp name
    have hag : st2.reg.AgreeAt (Base p) st2'.reg := by
      refine updateMetrics_agree fs fs' (Base p) (pre ++ d :: post) ?_ st st st2 st2'
        (agreeAt_refl _ _) h h'
      intro q hq hbq
      have hq' : q ∈ pre ++ post := by
        rcases List.mem_append.mp hq with h1 | h1
        · exact List.mem_append.mpr (Or.inl h1)
        · rcases List.mem_cons.mp h1 with h2 | h2
          · subst h2
            exact absurd hbq.symm (hother p hp).1
          · exact List.mem_append.mpr (Or.inr h2)
      exact (hother q hq').2
    exact agreeAt_value_eq hag name
  · intro hdir hbefore
    rw [updateMetrics_append]
    cases updateMetrics fs pre st with
    | error p => rfl
    | ok st0 =>
      simp only
      rw [updateMetrics_cons,
        parseAndUpdateMetrics_parse_failure fs d before after k content cause hschema hdir
          hbefore hfile hparse st0]
      cases parseAndUpdateMetricsOver before fs st0 d with
      | error p => rfl
      | ok r => rfl

/-- Witness of C3: two devices, the file `rx_rdma_ucast_pkts` of `ionic_0` holds `n/a`.
The cycle applies the 37 entries before it for `ionic_0`, prints the error and goes on
with `ionic_1`. -/
theorem C3_parse_failure_is_isolated_witness :
    updateMetrics (exampleFS "42\n" "n/a\n") ([] ++ ionic0 :: [ionic1]) freshState =
      (match updateMetrics (exampleFS "42\n" "n/a\n") [] freshState with
        | .error p => .error p
        | .ok st0 =>
          match parseAndUpdateMetricsOver (metricDefinitions.take 37)
              (exampleFS "42\n" "n/a\n") st0 ionic0 with
          | .error p => .error p
          | .ok (st1, _) =>
            updateMetrics (exampleFS "42\n" "n/a\n") [ionic1]
              (st1.print (.updateError ionic0
                (.parseError (Join (hwCounters ionic0) rxUcastPkts.name) .syntaxErr)))) :=
  (C3_parse_failure_is_isolated (exampleFS "42\n" "n/a\n") [] [ionic1] ionic0
    (metricDefinitions.take 37) (metricDefinitions.drop 38) rxUcastPkts "n/a\n" .syntaxErr
    (by decide) (by decide!) (by decide!) freshState).2.2 (by decide) (by decide!)

/-! ## A device without counter directory -/

theorem updateMetrics_skip {fs : FS} {nicPath : String}
    (h : fs.stat (hwCounters nicPath) = .notExist) (rest : List String) (st : State) :
    updateMetrics fs (nicPath :: rest) st =
      updateMetrics fs rest (st.print (.nicSkipped (Base nicPath))) := by
  have hp : parseAndUpdateMetrics fs st nicPath =
      .ok (st.print (.nicSkipped (Base nicPath)), none) := parseAndUpdateMetricsOver_skip h
  rw [updateMetrics_cons_ok hp]
  rfl

/-- A cycle over a list, seen from one of its devices. -/
theorem updateMetrics_at (fs : FS) (pre post : List String) (d : String) (st : State) :
    updateMetrics fs (pre ++ d :: post) st =
      match updateMetrics fs pre st with
      | .error p => .error p
      | .ok st1 =>
        match parseAndUpdateMetrics fs st1 d with
        | .error p => .error p
        | .ok (st2, err) => updateMetrics fs post (afterDevice d st2 err) := by
  rw [updateMetrics_append]
  cases updateMetrics fs pre st with
  | error p => rfl
  | ok st1 =>
    simp only
    rw [updateMetrics_cons]
    cases parseAndUpdateMetrics fs st1 d with
    | error p => rfl
    | ok r =>
      obtain ⟨st2, err⟩ := r
      cases err <;> rfl

theorem scheduler_cons (nicPaths : List String) (fs : FS) (later : List FS) (st : State) :
    scheduler nicPaths (fs :: later) st =
      match updateMetrics fs nicPaths st with
      | .error p => .error p
      | .ok st1 => scheduler nicPaths later st1 := by
  rw [scheduler]

/-- Claim C8 (amended): For every device path for which `os.Stat` reports that the
directory `ports/1/hw_counters` does not exist (`os.IsNotExist`), `parseAndUpdateMetrics`
returns no error and leaves the whole registry unchanged, whatever the counter files
would contain (none is read), and the cycle goes on with the next device.  The device
stays in the list and is tried again on the next cycle: a run of two cycles is the first
cycle with the device skipped followed by a second cycle that calls
`parseAndUpdateMetrics` on the device again, between the devices before and after it;
and when no counter file of a listed device holds a negative number in either cycle, the
two cycles return and the registry then shows a gauge whose file was successfully read
for the device in the second. -/
theorem C8_missing_counter_directory (fs : FS) (st : State) (nicPath : String)
    (h : fs.stat (hwCounters nicPath) = .notExist) :
    (∀ files : String → ReadResult,
      parseAndUpdateMetrics ⟨fs.stat, files⟩ st nicPath =
        .ok (st.print (.nicSkipped (Base nicPath)), none)) ∧
    (st.print (.nicSkipped (Base nicPath))).reg = st.reg ∧
    (∀ rest : List String,
      updateMetrics fs (nicPath :: rest) st =
        updateMetrics fs rest (st.print (.nicSkipped (Base nicPath)))) ∧
    (∀ (pre post : List String) (fs2 : FS),
      scheduler (pre ++ nicPath :: post) [fs, fs2] st =
        match updateMetrics fs pre st with
        | .error p => .error p
        | .ok sta =>
          match updateMetrics fs post (sta.print (.nicSkipped (Base nicPath))) with
          | .error p => .error p
          | .ok st1 =>
            match updateMetrics fs2 pre st1 with
            | .error p => .error p
            | .ok st2 =>
              match parseAndUpdateMetrics fs2 st2 nicPath with
              | .error p => .error p
              | .ok (st3, err) => updateMetrics fs2 post (afterDevice nicPath st3 err)) ∧
    (∀ (found : Discovered) (fs2 : FS) (m : MetricDef) (v : F64),
      nicPath ∈ found.paths → m ∈ metricDefinitions →
      m.kind = "gauge" → (st.reg.metrics m.name).isSome = true →
      successfulRead fs2 nicPath m.name = some v →
      (∀ p ∈ found.paths, noNegativeCounter fs p = true ∧ noNegativeCounter fs2 p = true) →
      ∃ st2, scheduler found.paths [fs, fs2] st = .ok st2 ∧
        st2.reg.value m.name (Base nicPath) = some v) := by
  refine ⟨fun files => ?_, rfl, fun rest => updateMetrics_skip h rest st, ?_, ?_⟩
  · have hskip : parseAndUpdateMetricsOver metricDefinitions ⟨fs.stat, files⟩ st nicPath =
        .ok (st.print (.nicSkipped (Base nicPath)), none) := parseAndUpdateMetricsOver_skip h
    exact hskip
  · intro pre post fs2
    rw [scheduler_cons, updateMetrics_append]
    cases updateMetrics fs pre st with
    | error p => rfl
    | ok sta =>
      simp only
      rw [updateMetrics_skip h]
      cases updateMetrics fs post (sta.print (.nicSkipped (Base nicPath))) with
      | error p => rfl
      | ok st1 =>
        simp only
        rw [scheduler_cons, updateMetrics_at]
        cases updateMetrics fs2 pre st1 with
        | error p => rfl
        | ok st2 =>
          simp only
          cases parseAndUpdateMetrics fs2 st2 nicPath with
          | error p => rfl
          | ok r =>
            obtain ⟨st3, err⟩ := r
            simp only
            cases updateMetrics fs2 post (afterDevice nicPath st3 err) with
            | error p => rfl
            | ok st4 => rfl
  · intro found fs2 m v hmem hm hk hreg hread hnn
    have hsafe : ∀ f ∈ [fs, fs2], ∀ p ∈ found.paths, noNegativeCounter f p = true := by
      intro f hf p hp
      simp only [List.mem_cons, List.mem_singleton, List.not_mem_nil, or_false] at hf
      rcases hf with rfl | rfl
      · exact (hnn p hp).1
      · exact (hnn p hp).2
    obtain ⟨st2, hrun⟩ := scheduler_ok found.paths [fs, fs2] hsafe st
    refine ⟨st2, hrun, ?_⟩
    obtain ⟨st1, h1, hrest⟩ := scheduler_cons_inv hrun
    obtain ⟨st2a, h2, hnil⟩ := scheduler_cons_inv hrest
    simp only [scheduler, Except.ok.injEq] at hnil
    subst hnil
    have hshape := updateMetrics_shape h1
    have hreg1 : (st1.reg.metrics m.name).isSome = true := by rw [hshape.1, hreg]
    obtain ⟨g, hg⟩ := Option.isSome_iff_exists.mp hreg1
    have heff := updateMetrics_effect fs2 found.paths found.distinct nicPath hmem
      schema_names_nodup m hm st1 st2a h2
    rw [hread] at heff
    simp only at heff
    rw [Registry.value_eq_view, heff.1]
    simp [gaugeSet, hk, Registry.gaugeAt, hg]

/-- Witness of C8: the device `ionic_0` has no counter directory in the first cycle and
has one in the second, in which `lifespan` reads 42; the scheduler returns from both
cycles and the registry shows 42. -/
theorem C8_missing_counter_directory_witness :
    (match scheduler [ionic0] [noCountersFS, exampleFS "42\n" "10\n"] freshState with
      | .ok st2 => st2.reg.value "lifespan" "ionic_0"
      | .error _ => none) = some (F64.fin 42) := by
  obtain ⟨st2, hrun, hval⟩ :=
    (C8_missing_counter_directory noCountersFS freshState ionic0 (by decide)).2.2.2.2
      ⟨[ionic0], by decide!⟩ (exampleFS "42\n" "10\n") lifespan (F64.fin 42)
      (List.mem_singleton.mpr rfl) (by decide) rfl (by decide!) (by decide!)
      (by
        intro p hp
        have hp1 : p = ionic0 := List.mem_singleton.mp hp
        subst hp1
        exact ⟨by decide!, by decide!⟩)
  have hpaths : (⟨[ionic0], by decide!⟩ : Discovered).paths = [ionic0] := rfl
  rw [hpaths] at hrun
  rw [hrun]
  exact hval

/-- Counterexample to C8 as stated: `ports` of the device is not a directory, so the
directory `ports/1/hw_counters` does not exist, but `os.Stat` fails with an error that
`os.IsNotExist` does not recognise.  The device is not skipped: the first counter file is
read, the read fails, `parseAndUpdateMetrics` returns that error and `updateMetrics`
prints it. -/
theorem C8_counterexample_not_a_directory :
    notDirFS.stat (hwCounters ionic0) = .otherErr ∧
    (match parseAndUpdateMetrics notDirFS freshState ionic0 with
      | .ok (_, err) => err
      | .error _ => none) =
      some (.readError "/sys/class/infiniband/ionic_0/ports/1/hw_counters/lifespan") ∧
    (match updateMetrics notDirFS [ionic0] freshState with
      | .ok st => st.log
      | .error _ => []) =
      [.updateError ionic0
        (.readError "/sys/class/infiniband/ionic_0/ports/1/hw_counters/lifespan")] := by
  refine ⟨rfl, by decide!, by decide!⟩

/-! ## The value step -/

end Exporter
